import Mathlib

/-!
Verification of the job-orchestrator core.

A shallow embedding, in Lean 4, of the parts of the orchestrator that the
frozen claims C1-C10 talk about:

* the chain-definition validation (`temporal_gateway/chains/models.py`,
  `temporal_sdk/chains/interpreter.py`),
* the DAG planner (`ChainInterpreter.create_execution_plan`),
* the Jinja-style template resolution (`ChainInterpreter.resolve_templates`),
* the artifact CRUD layer (`temporal_gateway/database/crud/artifact.py`),
* the approval CRUD layer (`temporal_gateway/database/crud/approval.py`),
* the workflow-template registry hashing and overrides
  (`temporal_gateway/workflow_registry.py`),
* the execution tracker (`temporal_gateway/clients/comfy/tracker.py`),
* the chain executor workflow (`temporal_gateway/workflows/chain/workflow.py`),
* the approval parameter validator (`temporal_gateway/clients/approval/service.py`).

Python dictionaries are modelled as association lists, database tables as
lists of rows, and machine integers as `Nat`/`Int`.  Every definition is
written to be executable so that concrete witnesses evaluate by `decide` or
`rfl`.
-/

/-! ## JSON values

JSON documents (workflow templates, parameter maps, step outputs) are
modelled by `JVal`.  Python `json.load` produces dicts that preserve key
insertion order, so objects are association lists.  Numbers are modelled by
`Int`: every template the registry or the chains handle in the claims has
integer-valued numbers, and none of the claims turns on float formatting. -/

inductive JVal where
  | null : JVal
  | bool : Bool → JVal
  | int : Int → JVal
  | str : String → JVal
  | arr : List JVal → JVal
  | obj : List (String × JVal) → JVal
deriving Repr

namespace JVal

mutual

/-- Structural equality test for `JVal` (Python `==` on parsed JSON). -/
def beq : JVal → JVal → Bool
  | .null, .null => true
  | .bool a, .bool b => a == b
  | .int a, .int b => a == b
  | .str a, .str b => a == b
  | .arr xs, .arr ys => beqList xs ys
  | .obj xs, .obj ys => beqObj xs ys
  | _, _ => false

/-- Elementwise equality of JSON arrays. -/
def beqList : List JVal → List JVal → Bool
  | [], [] => true
  | x :: xs, y :: ys => beq x y && beqList xs ys
  | _, _ => false

/-- Entrywise equality of JSON objects (order-sensitive, as association lists). -/
def beqObj : List (String × JVal) → List (String × JVal) → Bool
  | [], [] => true
  | (k, v) :: xs, (l, w) :: ys => k == l && beq v w && beqObj xs ys
  | _, _ => false

end

end JVal

instance : BEq JVal := ⟨JVal.beq⟩

/-- Look up a key in a JSON object's association list (Python `dict[key]`,
first binding wins; parsed JSON never has duplicate keys). -/
def jlookup (kvs : List (String × JVal)) (k : String) : Option JVal :=
  match kvs.find? (fun kv => kv.1 == k) with
  | some kv => some kv.2
  | none => none

/-! ## C7 — chain-definition validation

From `temporal_gateway/chains/models.py` (`ChainStepDefinition.validate_id`,
`ChainDefinition.validate_steps`) and
`temporal_sdk/chains/interpreter.py` (`ChainInterpreter.load_from_dict`).
The pydantic validators run when the `ChainDefinition` is constructed;
`load_from_dict` turns any validation failure into `ChainValidationError`. -/

namespace ChainVal

/-- Model of Python `str.isalnum` on a single character.  Python's
`isalnum` is Unicode-aware: it is true for every Unicode letter, digit and
numeric character.  This model is faithful on code points below `0x100`
(ASCII plus Latin-1, where the letters are `U+00AA`, `U+00B5`, `U+00BA`,
`U+00C0`-`U+00FF` except `×` `U+00D7` and `÷` `U+00F7`, and the numeric
characters are `U+00B2`, `U+00B3`, `U+00B9`, `U+00BC`-`U+00BE`); every
input appearing in a theorem below stays in that range. -/
def pyIsAlnumChar (c : Char) : Bool :=
  (('A' ≤ c && c ≤ 'Z') || ('a' ≤ c && c ≤ 'z') || ('0' ≤ c && c ≤ '9'))
  || (c.val == 0xAA || c.val == 0xB5 || c.val == 0xBA)
  || (c.val == 0xB2 || c.val == 0xB3 || c.val == 0xB9)
  || (0xBC ≤ c.val && c.val ≤ 0xBE)
  || (0xC0 ≤ c.val && c.val ≤ 0xFF && c.val != 0xD7 && c.val != 0xF7)

/-- Model of Python `str.isalnum` on a string: non-empty and every
character alphanumeric. -/
def pyIsAlnum (s : List Char) : Bool :=
  !s.isEmpty && s.all pyIsAlnumChar

/-- `ChainStepDefinition.validate_id`: the id is rejected when it is falsy
(empty) or when `id.replace('_', '').replace('-', '').isalnum()` is false. -/
def validateId (s : String) : Bool :=
  !(s == "") && pyIsAlnum ((s.toList.filter (fun c => !(c == '_') && !(c == '-'))))

/-- One chain step as far as validation is concerned (`id` plus the fields
the claims do not inspect, dropped here). -/
structure StepDef where
  id : String
deriving Repr, DecidableEq

/-- `ChainDefinition.validate_steps`: the list of step ids must have no
duplicates (`len(step_ids) != len(set(step_ids))` raises). -/
def validateSteps (steps : List StepDef) : Bool :=
  ((steps.map StepDef.id).dedup).length == (steps.map StepDef.id).length

/-- `ChainInterpreter.load_from_dict`: constructing the pydantic model runs
`validate_id` on every step id and `validate_steps` on the list; any
failure surfaces as `ChainValidationError`. -/
def loadFromDict (name : String) (steps : List StepDef) :
    Except String (String × List StepDef) :=
  if steps.all (fun s => validateId s.id) then
    if validateSteps steps then
      .ok (name, steps)
    else .error "Invalid chain definition: Duplicate step IDs found"
  else .error "Invalid chain definition: Invalid step ID"

/-- The claim's pattern `[A-Za-z0-9_-]+`: non-empty, only ASCII letters,
digits, underscore, hyphen.  Written from the claim's words, to compare
with the source's `validateId`. -/
def matchesClaimPattern (s : String) : Bool :=
  !s.isEmpty && s.toList.all (fun c =>
    ('A' ≤ c && c ≤ 'Z') || ('a' ≤ c && c ≤ 'z') || ('0' ≤ c && c ≤ '9')
    || c == '_' || c == '-')

/-- The amended acceptance condition for one id, written from the amended
claim's words: every character is alphanumeric in Python's Unicode sense,
an underscore or a hyphen, and at least one character is alphanumeric. -/
def amendedIdCondition (s : String) : Bool :=
  s.toList.all (fun c => pyIsAlnumChar c || c == '_' || c == '-')
  && s.toList.any pyIsAlnumChar

end ChainVal

/-! ## C10 — approval parameter validation

From `temporal_gateway/clients/approval/service.py`
(`ApprovalParameterValidator.validate_parameters` and `_validate_type`). -/

namespace ApprovalVal

/-- A Python value as far as `isinstance` type checks are concerned.  The
payloads are irrelevant to the validator; only the runtime type matters. -/
inductive PyVal where
  | str (s : String)
  | int (n : Int)
  | float
  | bool (b : Bool)
  | list
  | dict
  | pynone
deriving Repr, DecidableEq

/-- `type(value).__name__` in Python. -/
def PyVal.typeName : PyVal → String
  | .str _ => "str"
  | .int _ => "int"
  | .float => "float"
  | .bool _ => "bool"
  | .list => "list"
  | .dict => "dict"
  | .pynone => "NoneType"

/-- `isinstance(value, str)`. -/
def isInstStr : PyVal → Bool
  | .str _ => true
  | _ => false

/-- `isinstance(value, int)`.  In Python `bool` is a subclass of `int`, so
`True` and `False` satisfy this check. -/
def isInstInt : PyVal → Bool
  | .int _ => true
  | .bool _ => true
  | _ => false

/-- `isinstance(value, (int, float))` — the validator's check for the
declared type `float`; again `bool` passes through the `int` branch. -/
def isInstIntOrFloat : PyVal → Bool
  | .int _ => true
  | .float => true
  | .bool _ => true
  | _ => false

/-- `isinstance(value, bool)`. -/
def isInstBool : PyVal → Bool
  | .bool _ => true
  | _ => false

/-- `isinstance(value, list)`. -/
def isInstList : PyVal → Bool
  | .list => true
  | _ => false

/-- `isinstance(value, dict)`. -/
def isInstDict : PyVal → Bool
  | .dict => true
  | _ => false

/-- `ApprovalParameterValidator._validate_type`: returns `none` when the
value passes, or the error message.  Unknown declared types skip
validation. -/
def validateType (paramKey : String) (value : PyVal) (expectedType : String) :
    Option String :=
  let report (typeName : String) : Option String :=
    some ("Parameter '" ++ paramKey ++ "' must be a " ++ typeName
      ++ ", got " ++ value.typeName)
  if expectedType == "str" then
    if isInstStr value then none else report "string"
  else if expectedType == "int" then
    if isInstInt value then none else report "integer"
  else if expectedType == "float" then
    if isInstIntOrFloat value then none else report "number"
  else if expectedType == "bool" then
    if isInstBool value then none else report "boolean"
  else if expectedType == "list" then
    if isInstList value then none else report "list"
  else if expectedType == "dict" then
    if isInstDict value then none else report "object"
  else none

/-- A parameter entry of the override file as the validator sees it:
`key` and declared `type` (the `__name__` of the template default). -/
structure ParamInfo where
  key : String
  type : String
deriving Repr, DecidableEq

/-- `ApprovalParameterValidator.validate_parameters`: the registry maps a
workflow name to its parameter list; each provided parameter must be a
registered key and must pass `_validate_type`. -/
def validateParameters (registry : List (String × List ParamInfo))
    (workflowName : String) (provided : List (String × PyVal)) :
    Bool × List String :=
  match registry.find? (fun w => w.1 == workflowName) with
  | none => (false, ["Workflow '" ++ workflowName ++ "' not found in registry"])
  | some (_, params) =>
    let errors := provided.foldl (fun errs kv =>
      match params.find? (fun p => p.key == kv.1) with
      | none => errs ++ ["Parameter '" ++ kv.1 ++ "' is not editable "
          ++ "(not found in workflow override file)"]
      | some info =>
        match validateType kv.1 kv.2 info.type with
        | some e => errs ++ [e]
        | none => errs) []
    (errors.length == 0, errors)

end ApprovalVal

/-! ## C8 — execution tracker

From `temporal_gateway/clients/comfy/tracker.py`.  The race between the
polling task and the websocket task is abstracted into the ordered list of
`_set_result` calls the two tasks make before the overall deadline: the
event loop serialises them, `_set_result` keeps only the first, and an
empty list means the deadline fired first (`asyncio.TimeoutError`). -/

namespace Tracker

/-- `ExecutionStatus` from `clients/comfy/models.py`. -/
inductive ExecStatus where
  | queued | running | success | error | interrupted | unknown
deriving Repr, DecidableEq

/-- `TrackingResult`: final status, optional history payload, optional
error message. -/
structure TrackingResult where
  status : ExecStatus
  historyData : Option JVal := none
  error : Option String := none

/-- `ExecutionTracker._set_result`: assigns the result and sets the
completion event only when no result has been recorded yet; the
completion event is set exactly when `_result` is, so the guard is
`_result = none`. -/
def setResult (st : Option TrackingResult) (r : TrackingResult) :
    Option TrackingResult :=
  match st with
  | none => some r
  | some r0 => some r0

/-- The default `timeout` argument of `ExecutionTracker.__init__`
(600.0 seconds). -/
def defaultTimeoutSeconds : Nat := 600

/-- The result built in `track`'s `asyncio.TimeoutError` branch;
`timeoutRepr` is the Python string form of the `timeout` float (for the
default, `"600.0"`). -/
def timeoutResult (timeoutRepr : String) : TrackingResult :=
  { status := .error,
    error := some ("Tracking timed out after " ++ timeoutRepr ++ " seconds") }

/-- `ExecutionTracker.track`: the tasks' `_set_result` calls that happen
before the deadline are `arrivals` (in event-loop order).  If any call
happened the event is set within the timeout and `track` returns
`_result`; otherwise `asyncio.wait_for` raises and `track` returns the
timeout result. -/
def track (arrivals : List TrackingResult) (timeoutRepr : String) :
    TrackingResult :=
  match arrivals.foldl setResult none with
  | some r => r
  | none => timeoutResult timeoutRepr

end Tracker

/-! ## C1 — chain executor step execution

From `temporal_gateway/workflows/chain/workflow.py`
(`ChainExecutorWorkflow._execute_step`).  The activity and child-workflow
calls are recorded as an effect trace.  The `while True:` regeneration
loop at the top of the step body contains only the template-resolution,
parameter-application and server-selection activities and has no `break`,
`return` or `raise`: its body is modelled exactly, with `fuel` bounding
the number of iterations we unroll. -/

namespace ChainExec

/-- One orchestration effect of `_execute_step`, in program order. -/
inductive Effect where
  | evalCondition
  | resolveTemplates
  | applyParams
  | selectServer
  | getArtifacts
  | transferArtifacts
  | createWorkflowRecord
  | startChildWorkflow
  | updateWorkflowStatus
deriving Repr, DecidableEq

/-- A `StepResult` restricted to the fields the claim inspects. -/
structure StepRes where
  step_id : String
  status : String
deriving Repr, DecidableEq

/-- What a bounded unrolling of `_execute_step` produced: either a
returned `StepResult`, or the unrolling budget ran out with the loop
still running. -/
inductive Outcome where
  | finished (r : StepRes)
  | stillLooping
deriving Repr, DecidableEq

/-- One iteration of the `while True:` body: resolve templates (step 2),
apply workflow parameters (step 3), select the target server (step 4).
No exit exists in the body, so after the three activities the loop
re-enters itself. -/
def regenLoop : Nat → List Effect × Outcome
  | 0 => ([], .stillLooping)
  | n + 1 =>
    ([.resolveTemplates, .applyParams, .selectServer] ++ (regenLoop n).1,
     (regenLoop n).2)

/-- `_execute_step` on a node: evaluate the condition if present (step 1),
returning a skipped result when it is false; otherwise enter the
regeneration loop.  `condition = none` models a node without a condition;
`some b` models the `evaluate_chain_condition` activity returning `b`. -/
def executeStep (fuel : Nat) (stepId : String) (condition : Option Bool) :
    List Effect × Outcome :=
  match condition with
  | some false => ([.evalCondition], .finished ⟨stepId, "skipped"⟩)
  | some true => ([.evalCondition] ++ (regenLoop fuel).1, (regenLoop fuel).2)
  | none => regenLoop fuel

end ChainExec

/-! ## C6 — approval request lifecycle

From `temporal_gateway/database/crud/approval.py`.  Rows are modelled with
the fields the claim inspects; `datetime.utcnow()` is an abstract tick
`now : Nat`. -/

namespace Approval

/-- An `ApprovalRequest` row. -/
structure ApprovalRow where
  id : String
  token : String
  status : String
  decided_by : Option String
  decided_at : Option Nat
  link_expires_at : Option Nat
deriving Repr, DecidableEq

/-- `get_approval_request`: first row with the id. -/
def getApprovalRequest (rows : List ApprovalRow) (rid : String) :
    Option ApprovalRow :=
  rows.find? (fun r => r.id == rid)

/-- `get_approval_request_by_token`: first row with the token. -/
def getByToken (rows : List ApprovalRow) (token : String) :
    Option ApprovalRow :=
  rows.find? (fun r => r.token == token)

/-- `decided_by` is only assigned when the argument is truthy
(`if decided_by:`): `None` and the empty string leave the field alone. -/
def assignDecidedBy (old : Option String) (arg : Option String) :
    Option String :=
  match arg with
  | none => old
  | some d => if d == "" then old else some d

/-- `approve_approval_request`: no-op unless the row exists and is
`pending`; then status becomes `approved` with `decided_at`/`decided_by`
filled in. -/
def approveApprovalRequest (rows : List ApprovalRow) (rid : String)
    (decided_by : Option String) (now : Nat) : List ApprovalRow :=
  match getApprovalRequest rows rid with
  | none => rows
  | some r =>
    if r.status == "pending" then
      rows.map (fun q => if q.id == rid then
        { q with status := "approved", decided_at := some now,
                 decided_by := assignDecidedBy q.decided_by decided_by }
        else q)
    else rows

/-- `reject_approval_request`: same shape with status `rejected`. -/
def rejectApprovalRequest (rows : List ApprovalRow) (rid : String)
    (decided_by : Option String) (now : Nat) : List ApprovalRow :=
  match getApprovalRequest rows rid with
  | none => rows
  | some r =>
    if r.status == "pending" then
      rows.map (fun q => if q.id == rid then
        { q with status := "rejected", decided_at := some now,
                 decided_by := assignDecidedBy q.decided_by decided_by }
        else q)
    else rows

/-- `cancel_approval_request`: status `cancelled`, `decided_by` untouched. -/
def cancelApprovalRequest (rows : List ApprovalRow) (rid : String)
    (now : Nat) : List ApprovalRow :=
  match getApprovalRequest rows rid with
  | none => rows
  | some r =>
    if r.status == "pending" then
      rows.map (fun q => if q.id == rid then
        { q with status := "cancelled", decided_at := some now }
        else q)
    else rows

/-- `validate_approval_link`: `(is_valid, error_message)`.  The expiry
test is `if request.link_expires_at and request.link_expires_at <
datetime.utcnow()`, so a row without an expiry never expires. -/
def validateApprovalLink (rows : List ApprovalRow) (token : String)
    (now : Nat) : Bool × Option String :=
  match getByToken rows token with
  | none => (false, some "Invalid approval link")
  | some r =>
    if r.status == "pending" then
      match r.link_expires_at with
      | some e => if e < now then (false, some "Approval link has expired")
          else (true, none)
      | none => (true, none)
    else (false, some ("Approval request is already " ++ r.status))

end Approval

/-! ## C9 — registry override application

From `temporal_gateway/workflow_registry.py`
(`WorkflowRegistry.apply_overrides`).  The registry state is the
`workflows` map built at discovery time plus the template files on disk;
`apply_overrides` re-reads the template file on every call and mutates
nothing, which the model makes explicit by returning the state it leaves
behind. -/

namespace Registry

/-- A `WorkflowParameter` restricted to the fields `apply_overrides`
uses. -/
structure WorkflowParameter where
  key : String
  node_id : String
  input_key : String
deriving Repr, DecidableEq

/-- The registry's mutable state: `self.workflows` (name → parameter
list) and the template files in `workflows_dir` (name → parsed JSON). -/
structure RegistryState where
  workflows : List (String × List WorkflowParameter)
  files : List (String × JVal)

/-- Python dict assignment `d[k] = v`: replace the existing binding in
place, else append. -/
def setKey (kvs : List (String × JVal)) (k : String) (v : JVal) :
    List (String × JVal) :=
  if kvs.any (fun kv => kv.1 == k) then
    kvs.map (fun kv => if kv.1 == k then (k, v) else kv)
  else kvs ++ [(k, v)]

/-- `workflow_data[node_id]["inputs"][input_key] = value`, with the
Python failure modes (`KeyError` on a missing node or missing `inputs`
key, `TypeError` when the traversed values are not dicts). -/
def setWorkflowInput (doc : JVal) (nodeId inputKey : String) (v : JVal) :
    Except String JVal :=
  match doc with
  | .obj nodes =>
    match jlookup nodes nodeId with
    | none => .error "KeyError"
    | some (.obj fields) =>
      match jlookup fields "inputs" with
      | none => .error "KeyError"
      | some (.obj inputs) =>
        .ok (.obj (setKey nodes nodeId
          (.obj (setKey fields "inputs" (.obj (setKey inputs inputKey v))))))
      | some _ => .error "TypeError"
    | some _ => .error "TypeError"
  | _ => .error "TypeError"

/-- The `for key, value in overrides.items()` loop: an unknown key raises
`ValueError`, a known one is written into the (deep-copied) document. -/
def applyLoop (allowed : List WorkflowParameter) (doc : JVal) :
    List (String × JVal) → Except String JVal
  | [] => .ok doc
  | (k, v) :: rest =>
    match allowed.find? (fun p => p.key == k) with
    | none => .error ("Parameter '" ++ k ++ "' is not overridable")
    | some p =>
      match setWorkflowInput doc p.node_id p.input_key v with
      | .ok doc2 => applyLoop allowed doc2 rest
      | .error e => .error e

/-- The value `apply_overrides` computes: look the workflow up in
`self.workflows`, re-read its template file, apply each override. -/
def applyOverridesResult (st : RegistryState) (name : String)
    (ovs : List (String × JVal)) : Except String JVal :=
  match st.workflows.find? (fun w => w.1 == name) with
  | none => .error ("Workflow '" ++ name ++ "' not found")
  | some (_, params) =>
    match st.files.find? (fun f => f.1 == name) with
    | none => .error "FileNotFoundError"
    | some (_, template) => applyLoop params template ovs

/-- `apply_overrides` as a state transformer: the returned state is the
state the method leaves behind — it only reads `self.workflows` and the
file system, so the state is unchanged. -/
def applyOverrides (st : RegistryState) (name : String)
    (ovs : List (String × JVal)) : Except String JVal × RegistryState :=
  (applyOverridesResult st name ovs, st)

end Registry

/-! ## C2 — artifact store invariant

From `temporal_gateway/database/crud/artifact.py` (`create_artifact`,
`update_artifact_latest_flag`, `delete_artifact`) and
`crud/workflow.py` (`get_workflow`, `update_workflow_latest_artifact`).
In this repository the `Job` row is the `Workflow` ORM model, so
`workflow_id` on an artifact is the job's database id.  Each CRUD call is
modelled by its net effect on the committed state. -/

namespace ArtifactDb

/-- An `Artifact` row restricted to the fields the invariant inspects. -/
structure ArtifactRow where
  id : String
  workflow_id : String
  is_latest : Bool
deriving Repr, DecidableEq

/-- A job (`Workflow`) row: id and denormalized latest-artifact pointer. -/
structure JobRow where
  id : String
  latest_artifact_id : Option String
deriving Repr, DecidableEq

/-- The committed database state. -/
structure DbState where
  jobs : List JobRow
  artifacts : List ArtifactRow
deriving Repr, DecidableEq

/-- `get_artifact`: first artifact with the id. -/
def getArtifact (st : DbState) (aid : String) : Option ArtifactRow :=
  st.artifacts.find? (fun a => a.id == aid)

/-- The bulk update `... .filter(workflow_id == wid, id != aid)
.update({"is_latest": False})` applied to one row. -/
def demote (wid aid : String) (a : ArtifactRow) : ArtifactRow :=
  if a.workflow_id == wid && !(a.id == aid) then { a with is_latest := false }
  else a

/-- Assigning `artifact.is_latest = b` on the ORM row with id `aid`. -/
def setFlagOf (aid : String) (b : Bool) (a : ArtifactRow) : ArtifactRow :=
  if a.id == aid then { a with is_latest := b } else a

/-- `workflow.latest_artifact_id = aid` /
`update_workflow_latest_artifact`: assignment on the job row `wid` (a
no-op when the row does not exist). -/
def jobPoint (wid aid : String) (j : JobRow) : JobRow :=
  if j.id == wid then { j with latest_artifact_id := some aid } else j

/-- `create_artifact`: insert the row; when `is_latest` is true (the
default), unset `is_latest` on every other artifact of the same workflow
and point the job's `latest_artifact_id` at the new row (when the job row
exists). -/
def createArtifact (st : DbState) (aid wid : String) (isLatest : Bool) :
    DbState :=
  let arts := st.artifacts ++ [⟨aid, wid, isLatest⟩]
  if isLatest then
    { jobs := st.jobs.map (jobPoint wid aid),
      artifacts := arts.map (demote wid aid) }
  else { st with artifacts := arts }

/-- `update_artifact_latest_flag`: no-op when the artifact is missing;
with `is_latest=True` demote the workflow's other artifacts, update the
job pointer (`update_workflow_latest_artifact`), and set the flag; with
`is_latest=False` just clear the flag. -/
def updateArtifactLatestFlag (st : DbState) (aid : String)
    (isLatest : Bool) : DbState :=
  match getArtifact st aid with
  | none => st
  | some art =>
    if isLatest then
      { jobs := st.jobs.map (jobPoint art.workflow_id aid),
        artifacts := (st.artifacts.map (demote art.workflow_id aid)).map
          (setFlagOf aid true) }
    else
      { st with artifacts := st.artifacts.map (setFlagOf aid false) }

/-- `delete_artifact`: remove the row (no reassignment of `is_latest` and
no touch of the job's `latest_artifact_id`). -/
def deleteArtifact (st : DbState) (aid : String) : DbState :=
  match getArtifact st aid with
  | none => st
  | some _ => { st with artifacts := st.artifacts.eraseP (fun a => a.id == aid) }

/-- One artifact-store operation, as in the claim. -/
inductive ArtifactOp where
  | create (aid wid : String) (isLatest : Bool)
  | setLatestFlag (aid : String) (isLatest : Bool)
  | del (aid : String)
deriving Repr, DecidableEq

def applyOp (st : DbState) : ArtifactOp → DbState
  | .create aid wid l => createArtifact st aid wid l
  | .setLatestFlag aid l => updateArtifactLatestFlag st aid l
  | .del aid => deleteArtifact st aid

def applyOps (st : DbState) (ops : List ArtifactOp) : DbState :=
  ops.foldl applyOp st

/-- The artifacts of one job. -/
def artifactsOf (st : DbState) (wid : String) : List ArtifactRow :=
  st.artifacts.filter (fun a => a.workflow_id == wid)

/-- The job's artifacts carrying `is_latest=true`. -/
def latestOf (st : DbState) (wid : String) : List ArtifactRow :=
  st.artifacts.filter (fun a => a.workflow_id == wid && a.is_latest)

/-- The claim's invariant: every job that has at least one artifact has
exactly one `is_latest=true` artifact, and its `latest_artifact_id`
points at it. -/
def Inv (st : DbState) : Prop :=
  ∀ j ∈ st.jobs, artifactsOf st j.id ≠ [] →
    (latestOf st j.id).length = 1
    ∧ j.latest_artifact_id = ((latestOf st j.id).head?).map (fun a => a.id)

instance (st : DbState) : Decidable (Inv st) := by
  unfold Inv
  infer_instance

/-- The amended claim's restriction on one operation: creations carry
`is_latest=true` (the call sites' default) with an id that is fresh in
the current state (`uuid4`), flag updates carry `is_latest=true`, and no
deletion occurs. -/
def opOk (st : DbState) : ArtifactOp → Bool
  | .create aid _ l => l && st.artifacts.all (fun a => !(a.id == aid))
  | .setLatestFlag _ l => l
  | .del _ => false

/-- `opOk` along a whole operation sequence, each op checked in the state
it runs in. -/
def opsOk : DbState → List ArtifactOp → Bool
  | _, [] => true
  | st, op :: rest => opOk st op && opsOk (applyOp st op) rest

end ArtifactDb

/-! ## C4 — template resolution

From `temporal_sdk/chains/interpreter.py` (`resolve_templates`,
`_resolve_value`) and the Jinja2 semantics it relies on (Jinja 3.x with
the default lenient `Undefined`).  The modelled template fragment is the
one the chains use: literal text interleaved with `{{ name.attr... }}`
dotted-path substitutions.  The Jinja behaviours that decide the claim:

* a missing top-level name resolves to `Undefined`;
* `environment.getattr` on a dict falls back to item lookup and returns a
  fresh `Undefined` when the key is missing — **without raising**;
* attribute access **on** an `Undefined` raises `UndefinedError` (which
  `resolve_templates` converts to `TemplateResolutionError`);
* printing an `Undefined` yields the empty string. -/

namespace Templates

/-- Parameter/context values: YAML/JSON scalars and containers plus
Python floats (as rationals; the claims never render or compare float
values). -/
inductive TVal where
  | pynone : TVal
  | bool : Bool → TVal
  | int : Int → TVal
  | float : Rat → TVal
  | str : String → TVal
  | list : List TVal → TVal
  | dict : List (String × TVal) → TVal
deriving Repr

/-- Dict lookup (`d[k]`, first binding). -/
def lookupT (kvs : List (String × TVal)) (k : String) : Option TVal :=
  (kvs.find? (fun kv => kv.1 == k)).map (fun kv => kv.2)

/-- One compiled template segment: literal text or a dotted-path
variable substitution. -/
inductive Seg where
  | lit : String → Seg
  | var : List String → Seg
deriving Repr, DecidableEq

/-- Split on a two-character separator `[a, b]` (Python `s.split(ab)`,
which is how the template lexer is modelled; structural recursion keeps
every theorem kernel-computable). -/
def splitOnPair (a b : Char) : List Char → List (List Char)
  | [] => [[]]
  | [c] => [[c]]
  | c :: d :: rest =>
    if c == a && d == b then [] :: splitOnPair a b rest
    else
      match splitOnPair a b (d :: rest) with
      | [] => [[c]]
      | x :: xs => (c :: x) :: xs

/-- Split on a single character (for the dots of a path). -/
def splitOnChar (sep : Char) : List Char → List (List Char)
  | [] => [[]]
  | c :: rest =>
    if c == sep then [] :: splitOnChar sep rest
    else
      match splitOnChar sep rest with
      | [] => [[c]]
      | x :: xs => (c :: x) :: xs

/-- Join chunks with a separator (inverse of the splits, used to keep the
literal text after the first closing braces). -/
def joinWith (sep : List Char) : List (List Char) → List Char
  | [] => []
  | [x] => x
  | x :: xs => x ++ sep ++ joinWith sep xs

/-- Python substring test `ab in s` for the two-character markers. -/
def containsPair (a b : Char) : List Char → Bool
  | [] => false
  | [_] => false
  | c :: d :: rest => (c == a && d == b) || containsPair a b (d :: rest)

/-- The whitespace Python's `str.strip`/Jinja trimming removes (modelled
on the ASCII whitespace the templates can contain). -/
def isPySpace (c : Char) : Bool :=
  c == ' ' || c == '\t' || c == '\n' || c == '\r'

/-- Strip surrounding whitespace. -/
def trimChars (cs : List Char) : List Char :=
  ((cs.dropWhile isPySpace).reverse.dropWhile isPySpace).reverse

/-- ASCII Python identifier characters (the chains' step ids and field
names; Jinja names are Python identifiers). -/
def isPyIdentStart (c : Char) : Bool :=
  ('A' ≤ c && c ≤ 'Z') || ('a' ≤ c && c ≤ 'z') || c == '_'

def isPyIdentChar (c : Char) : Bool :=
  isPyIdentStart c || ('0' ≤ c && c ≤ '9')

def isPyIdent (cs : List Char) : Bool :=
  match cs with
  | [] => false
  | c :: cs => isPyIdentStart c && cs.all isPyIdentChar

/-- Parse the inside of `... .. ..` into a dotted path of identifiers. -/
def parsePath (cs : List Char) : Option (List String) :=
  let parts := splitOnChar '.' cs
  if parts.all isPyIdent then some (parts.map String.mk) else none

/-- Parse one chunk that follows a `\x7b\x7b`: everything up to the first
`\x7d\x7d` is the expression, the remainder is literal text.  A chunk
with no closing braces is a Jinja `TemplateSyntaxError`. -/
def parseExprChunk (chunk : List Char) : Option (Seg × List Char) :=
  match splitOnPair '\x7d' '\x7d' chunk with
  | [] => none
  | [_] => none
  | expr :: litParts =>
    match parsePath (trimChars expr) with
    | none => none
    | some p => some (.var p, joinWith ['\x7d', '\x7d'] litParts)

def parseSegs : List (List Char) → Option (List Seg)
  | [] => some []
  | chunk :: rest =>
    match parseExprChunk chunk with
    | none => none
    | some (seg, lit) =>
      match parseSegs rest with
      | none => none
      | some segs =>
        some (seg :: (if lit.isEmpty then segs else .lit (String.mk lit) :: segs))

/-- Compile a template string into segments (`Environment.from_string`
restricted to dotted-path substitutions; empty literal chunks are not
emitted, which leaves rendering unchanged). -/
def parseTemplate (s : String) : Option (List Seg) :=
  match splitOnPair '\x7b' '\x7b' s.toList with
  | [] => some []
  | first :: rest =>
    match parseSegs rest with
    | none => none
    | some segs =>
      some (if first.isEmpty then segs else .lit (String.mk first) :: segs)

/-- A Jinja runtime value: a concrete value or the lenient `Undefined`. -/
inductive JinjaVal where
  | undef : JinjaVal
  | val : TVal → JinjaVal

/-- `environment.getattr`: attribute access on `Undefined` raises
`UndefinedError`; on a dict it falls back to item lookup and produces
`Undefined` for a missing key; on other values it likewise degrades to
`Undefined` (the templates only traverse dicts). -/
def getAttr : JinjaVal → String → Except Unit JinjaVal
  | .undef, _ => .error ()
  | .val (.dict kvs), k =>
    match lookupT kvs k with
    | some v => .ok (.val v)
    | none => .ok .undef
  | .val _, _ => .ok .undef

mutual

/-- Python `repr` for container elements.  String escaping inside `repr`
and the shortest-float form are simplified; no claim inspects rendered
containers or floats. -/
def pyRepr : TVal → String
  | .pynone => "None"
  | .bool b => if b then "True" else "False"
  | .int n => toString n
  | .float q => toString q
  | .str s => "'" ++ s ++ "'"
  | .list xs => "[" ++ String.intercalate ", " (pyReprList xs) ++ "]"
  | .dict kvs => "\x7b" ++ String.intercalate ", " (pyReprDict kvs) ++ "\x7d"

/-- `repr` of the elements of a list. -/
def pyReprList : List TVal → List String
  | [] => []
  | x :: xs => pyRepr x :: pyReprList xs

/-- `repr` of the entries of a dict. -/
def pyReprDict : List (String × TVal) → List String
  | [] => []
  | (k, v) :: kvs => ("'" ++ k ++ "': " ++ pyRepr v) :: pyReprDict kvs

end

/-- What Jinja prints for a value: `str()`, with `Undefined` printing as
the empty string. -/
def jinjaStr : JinjaVal → String
  | .undef => ""
  | .val (.str s) => s
  | .val v => pyRepr v

/-- Fold `environment.getattr` along the attribute chain. -/
def renderSteps : JinjaVal → List String → Except Unit JinjaVal
  | v, [] => .ok v
  | v, a :: rest =>
    match getAttr v a with
    | .error e => .error e
    | .ok v2 => renderSteps v2 rest

/-- Evaluate one `... name.attr... ...` substitution against the
context. -/
def renderVar (ctx : List (String × TVal)) (path : List String) :
    Except Unit String :=
  match path with
  | [] => .error ()
  | name :: attrs =>
    let v0 : JinjaVal :=
      match lookupT ctx name with
      | some v => .val v
      | none => .undef
    match renderSteps v0 attrs with
    | .error e => .error e
    | .ok v => .ok (jinjaStr v)

/-- Render a compiled template: concatenate literals and substitution
results. -/
def renderTemplate (ctx : List (String × TVal)) :
    List Seg → Except Unit String
  | [] => .ok ""
  | .lit t :: rest =>
    match renderTemplate ctx rest with
    | .error e => .error e
    | .ok out => .ok (t ++ out)
  | .var p :: rest =>
    match renderVar ctx p with
    | .error e => .error e
    | .ok piece =>
      match renderTemplate ctx rest with
      | .error e => .error e
      | .ok out => .ok (piece ++ out)

/-- Python `str.isdigit` on the ASCII digits (the model is faithful on
ASCII strings, which is all the coercion sees in the claims). -/
def pyIsDigitStr (s : String) : Bool :=
  !s.isEmpty && s.toList.all (fun c => '0' ≤ c && c ≤ '9')

/-- The numeric value of a digit run, as a rational. -/
def digitsVal (cs : List Char) : Rat :=
  cs.foldl (fun acc c => acc * 10 + (Rat.ofInt (c.toNat - '0'.toNat))) 0

/-- The numeric value of a digit run, as a natural number. -/
def digitsNat (cs : List Char) : Nat :=
  cs.foldl (fun acc c => acc * 10 + (c.toNat - '0'.toNat)) 0

/-- `float(s)` on finite decimal literals: optional sign, digits with an
optional point and optional exponent, surrounding whitespace stripped.
(`inf`/`nan` spellings are not modelled; no claim exercises them.) -/
def pyParseFloat (s : String) : Option Rat :=
  let cs := trimChars s.toList
  let (sign, cs) : Rat × List Char :=
    match cs with
    | '+' :: rest => (1, rest)
    | '-' :: rest => (-1, rest)
    | _ => (1, cs)
  let (ip, r1) := cs.span (fun c => '0' ≤ c && c ≤ '9')
  let mant : Option (Rat × List Char) :=
    match r1 with
    | '.' :: r2 =>
      let (fp, r3) := r2.span (fun c => '0' ≤ c && c ≤ '9')
      if ip.isEmpty && fp.isEmpty then none
      else some (digitsVal ip + digitsVal fp / ((10 : Rat) ^ fp.length), r3)
    | _ => if ip.isEmpty then none else some (digitsVal ip, r1)
  match mant with
  | none => none
  | some (m, rest) =>
    match rest with
    | [] => some (sign * m)
    | e :: r4 =>
      if e == 'e' || e == 'E' then
        let (esign, r5) : Int × List Char :=
          match r4 with
          | '+' :: r => (1, r)
          | '-' :: r => (-1, r)
          | _ => (1, r4)
        let (ed, r6) := r5.span (fun c => '0' ≤ c && c ≤ '9')
        if ed.isEmpty || !r6.isEmpty then none
        else
          let pow : Rat := (10 : Rat) ^ digitsNat ed
          some (sign * (if esign = 1 then m * pow else m / pow))
      else none

/-- The numeric coercion at the end of `_resolve_value`: an all-digit
render becomes `int(result)`; otherwise `float(result)` is attempted and
a failure keeps the rendered string. -/
def coerce (s : String) : TVal :=
  if pyIsDigitStr s then
    match s.toNat? with
    | some n => .int n
    | none => .str s
  else
    match pyParseFloat s with
    | some q => .float q
    | none => .str s

mutual

/-- `ChainInterpreter._resolve_value`: a string containing both template
markers is compiled and rendered (a `TemplateSyntaxError` or
`UndefinedError` becomes `TemplateResolutionError`, modelled as
`.error ()`), and the rendered text is numerically coerced; dicts and
lists recurse; other values pass through. -/
def resolveValue (ctx : List (String × TVal)) : TVal → Except Unit TVal
  | .str s =>
    if containsPair '\x7b' '\x7b' s.toList
        && containsPair '\x7d' '\x7d' s.toList then
      match parseTemplate s with
      | none => .error ()
      | some segs =>
        match renderTemplate ctx segs with
        | .error e => .error e
        | .ok out => .ok (coerce out)
    else .ok (.str s)
  | .dict kvs =>
    match resolveDict ctx kvs with
    | .error e => .error e
    | .ok kvs2 => .ok (.dict kvs2)
  | .list xs =>
    match resolveList ctx xs with
    | .error e => .error e
    | .ok xs2 => .ok (.list xs2)
  | .pynone => .ok .pynone
  | .bool b => .ok (.bool b)
  | .int n => .ok (.int n)
  | .float q => .ok (.float q)

def resolveList (ctx : List (String × TVal)) :
    List TVal → Except Unit (List TVal)
  | [] => .ok []
  | x :: xs =>
    match resolveValue ctx x with
    | .error e => .error e
    | .ok x2 =>
      match resolveList ctx xs with
      | .error e => .error e
      | .ok xs2 => .ok (x2 :: xs2)

def resolveDict (ctx : List (String × TVal)) :
    List (String × TVal) → Except Unit (List (String × TVal))
  | [] => .ok []
  | (k, v) :: kvs =>
    match resolveValue ctx v with
    | .error e => .error e
    | .ok v2 =>
      match resolveDict ctx kvs with
      | .error e => .error e
      | .ok kvs2 => .ok ((k, v2) :: kvs2)

end

/-- `ChainInterpreter.resolve_templates`: resolve every parameter value,
converting the first failure into `TemplateResolutionError`. -/
def resolveTemplates (params : List (String × TVal))
    (ctx : List (String × TVal)) : Except Unit (List (String × TVal)) :=
  resolveDict ctx params

end Templates

/-! ## C3 — registry hashing of templates

From `temporal_gateway/workflow_registry.py` (`_calculate_hash`,
`_generate_override_file` and the `_discover` flow that feeds the hash
into the override file).  The serialization the code hashes is
`json.dumps(workflow_data, sort_keys=True, ensure_ascii=False)` — note
Python's **default separators** `(', ', ': ')`, which put a space after
every comma and colon — and the stored string is prefixed with
`"sha256:"`.  SHA-256 itself is implemented below over `Nat` so that the
stored value is fully computable. -/

namespace Hashing

/-- Lowercase hex digit. -/
def hexDigit (n : Nat) : Char :=
  if n < 10 then Char.ofNat ('0'.toNat + n) else Char.ofNat ('a'.toNat + n - 10)

/-- Fixed-width big-endian hex rendering. -/
def toHexAux : Nat → Nat → List Char
  | 0, _ => []
  | d + 1, n => toHexAux d (n / 16) ++ [hexDigit (n % 16)]

/-- JSON string escaping as `json.dumps` performs it (`ensure_ascii=False`
keeps non-ASCII characters raw; control characters below `0x20` get the
two-character escapes or `\u00XX`). -/
def escapeChar (c : Char) : List Char :=
  if c == '"' then ['\\', '"']
  else if c == '\\' then ['\\', '\\']
  else if c == '\n' then ['\\', 'n']
  else if c == '\t' then ['\\', 't']
  else if c == '\r' then ['\\', 'r']
  else if c.toNat == 8 then ['\\', 'b']
  else if c.toNat == 12 then ['\\', 'f']
  else if c.toNat < 0x20 then
    ['\\', 'u', '0', '0', hexDigit (c.toNat / 16), hexDigit (c.toNat % 16)]
  else [c]

def jsonEscape (s : String) : String :=
  String.mk (s.data.foldr (fun c acc => escapeChar c ++ acc) [])

/-- Code-point-wise `≤` on strings — Python's `str` ordering, used by
`sort_keys=True`. -/
def charListLe : List Char → List Char → Bool
  | [], _ => true
  | _ :: _, [] => false
  | c :: cs, d :: ds =>
    if c.toNat < d.toNat then true
    else if d.toNat < c.toNat then false
    else charListLe cs ds

def strLeb (a b : String) : Bool := charListLe a.data b.data

/-- Stable insertion into a key-sorted association list. -/
def insertByKey (kv : String × JVal) :
    List (String × JVal) → List (String × JVal)
  | [] => [kv]
  | x :: xs => if strLeb kv.1 x.1 then kv :: x :: xs else x :: insertByKey kv xs

/-- `sorted(d.items())` by key. -/
def sortByKey (kvs : List (String × JVal)) : List (String × JVal) :=
  kvs.foldr insertByKey []

mutual

/-- Recursively key-sort every object of a JSON value.  Serializing with
`sort_keys=True` is serializing this normal form in order. -/
def sortJVal : JVal → JVal
  | .null => .null
  | .bool b => .bool b
  | .int n => .int n
  | .str s => .str s
  | .arr xs => .arr (sortJValList xs)
  | .obj kvs => .obj (sortByKey (sortJValObj kvs))

def sortJValList : List JVal → List JVal
  | [] => []
  | x :: xs => sortJVal x :: sortJValList xs

def sortJValObj : List (String × JVal) → List (String × JVal)
  | [] => []
  | (k, v) :: kvs => (k, sortJVal v) :: sortJValObj kvs

end

mutual

/-- Serialization of a key-sorted value with `json.dumps`'s default
separators `', '` and `': '` (`ensure_ascii=False`). -/
def dumpsSorted : JVal → String
  | .null => "null"
  | .bool b => if b then "true" else "false"
  | .int n => toString n
  | .str s => "\"" ++ jsonEscape s ++ "\""
  | .arr xs => "[" ++ dumpsSortedList xs ++ "]"
  | .obj kvs => "\x7b" ++ dumpsSortedObj kvs ++ "\x7d"

def dumpsSortedList : List JVal → String
  | [] => ""
  | [x] => dumpsSorted x
  | x :: y :: xs => dumpsSorted x ++ ", " ++ dumpsSortedList (y :: xs)

def dumpsSortedObj : List (String × JVal) → String
  | [] => ""
  | [(k, v)] => "\"" ++ jsonEscape k ++ "\": " ++ dumpsSorted v
  | (k, v) :: x :: kvs =>
    "\"" ++ jsonEscape k ++ "\": " ++ dumpsSorted v ++ ", "
      ++ dumpsSortedObj (x :: kvs)

end

/-- `json.dumps(v, sort_keys=True, ensure_ascii=False)` with the default
separators — the exact string `_calculate_hash` encodes and hashes. -/
def pyDumps (t : JVal) : String := dumpsSorted (sortJVal t)

mutual

/-- Serialization with no whitespace, for the spec-side canonical JSON. -/
def canonSerialize : JVal → String
  | .null => "null"
  | .bool b => if b then "true" else "false"
  | .int n => toString n
  | .str s => "\"" ++ jsonEscape s ++ "\""
  | .arr xs => "[" ++ String.intercalate "," (canonSerializeList xs) ++ "]"
  | .obj kvs =>
    "\x7b" ++ String.intercalate "," (canonSerializeObj kvs) ++ "\x7d"

def canonSerializeList : List JVal → List String
  | [] => []
  | x :: xs => canonSerialize x :: canonSerializeList xs

def canonSerializeObj : List (String × JVal) → List String
  | [] => []
  | (k, v) :: kvs =>
    ("\"" ++ jsonEscape k ++ "\":" ++ canonSerialize v)
      :: canonSerializeObj kvs

end

/-- The claim's canonical JSON, written from the spec's words: object
keys sorted recursively, fixed UTF-8 encoding, **no whitespace**. -/
def specCanonicalJson (t : JVal) : String := canonSerialize (sortJVal t)

mutual

/-- Serialization with Python's default separator spaces, for the
amended claim. -/
def amendedSerialize : JVal → String
  | .null => "null"
  | .bool b => if b then "true" else "false"
  | .int n => toString n
  | .str s => "\"" ++ jsonEscape s ++ "\""
  | .arr xs => "[" ++ String.intercalate ", " (amendedSerializeList xs) ++ "]"
  | .obj kvs =>
    "\x7b" ++ String.intercalate ", " (amendedSerializeObj kvs) ++ "\x7d"

def amendedSerializeList : List JVal → List String
  | [] => []
  | x :: xs => amendedSerialize x :: amendedSerializeList xs

def amendedSerializeObj : List (String × JVal) → List String
  | [] => []
  | (k, v) :: kvs =>
    ("\"" ++ jsonEscape k ++ "\": " ++ amendedSerialize v)
      :: amendedSerializeObj kvs

end

/-- The amended claim's serialization: keys sorted recursively and a
space after every `,` and `:` separator, as Python's default separators
produce. -/
def amendedCanonicalJson (t : JVal) : String := amendedSerialize (sortJVal t)

/-- UTF-8 encoding of one character. -/
def utf8EncodeChar (c : Char) : List Nat :=
  let n := c.toNat
  if n < 0x80 then [n]
  else if n < 0x800 then
    [0xC0 ||| (n >>> 6), 0x80 ||| (n &&& 0x3F)]
  else if n < 0x10000 then
    [0xE0 ||| (n >>> 12), 0x80 ||| ((n >>> 6) &&& 0x3F), 0x80 ||| (n &&& 0x3F)]
  else
    [0xF0 ||| (n >>> 18), 0x80 ||| ((n >>> 12) &&& 0x3F),
     0x80 ||| ((n >>> 6) &&& 0x3F), 0x80 ||| (n &&& 0x3F)]

/-- `.encode('utf-8')`. -/
def utf8Bytes (s : String) : List Nat :=
  s.data.foldr (fun c acc => utf8EncodeChar c ++ acc) []

/-- 2^32, the word modulus of SHA-256. -/
def M32 : Nat := 4294967296

/-- Rotate a 32-bit word right by `n`. -/
def rotr (n x : Nat) : Nat := ((x >>> n) ||| (x <<< (32 - n))) % M32

def smallSigma0 (x : Nat) : Nat := (rotr 7 x) ^^^ (rotr 18 x) ^^^ (x >>> 3)
def smallSigma1 (x : Nat) : Nat := (rotr 17 x) ^^^ (rotr 19 x) ^^^ (x >>> 10)
def bigSigma0 (x : Nat) : Nat := (rotr 2 x) ^^^ (rotr 13 x) ^^^ (rotr 22 x)
def bigSigma1 (x : Nat) : Nat := (rotr 6 x) ^^^ (rotr 11 x) ^^^ (rotr 25 x)
def chF (x y z : Nat) : Nat := (x &&& y) ^^^ ((x ^^^ 0xFFFFFFFF) &&& z)
def majF (x y z : Nat) : Nat := (x &&& y) ^^^ (x &&& z) ^^^ (y &&& z)

/-- The 32-bit words of a packed big-endian constant table, most
significant word first. -/
def unpackWords (count : Nat) (packed : Nat) : List Nat :=
  (List.range count).map
    (fun i => (packed >>> (32 * (count - 1 - i))) &&& 0xFFFFFFFF)

/-- The 64 SHA-256 round constants, packed big-endian. -/
def Kpacked : Nat :=
  0x428a2f9871374491b5c0fbcfe9b5dba53956c25b59f111f1923f82a4ab1c5ed5d807aa9812835b01243185be550c7dc372be5d7480deb1fe9bdc06a7c19bf174e49b69c1efbe47860fc19dc6240ca1cc2de92c6f4a7484aa5cb0a9dc76f988da983e5152a831c66db00327c8bf597fc7c6e00bf3d5a7914706ca63511429296727b70a852e1b21384d2c6dfc53380d13650a7354766a0abb81c2c92e92722c85a2bfe8a1a81a664bc24b8b70c76c51a3d192e819d6990624f40e3585106aa07019a4c1161e376c082748774c34b0bcb5391c0cb34ed8aa4a5b9cca4f682e6ff3748f82ee78a5636f84c878148cc7020890befffaa4506cebbef9a3f7c67178f2

/-- The SHA-256 round constants. -/
def K : List Nat := unpackWords 64 Kpacked

/-- The SHA-256 initial hash state, packed big-endian. -/
def H0packed : Nat :=
  0x6a09e667bb67ae853c6ef372a54ff53a510e527f9b05688c1f83d9ab5be0cd19

/-- The SHA-256 initial hash state. -/
def H0 : List Nat := unpackWords 8 H0packed

/-- Fixed-width big-endian byte rendering. -/
def beBytes : Nat → Nat → List Nat
  | 0, _ => []
  | c + 1, n => beBytes c (n >>> 8) ++ [n &&& 0xFF]

/-- SHA-256 message padding: `0x80`, zeros to 56 mod 64, then the bit
length as 8 big-endian bytes. -/
def padMessage (msg : List Nat) : List Nat :=
  let len := msg.length
  let k := (64 + 55 - (len % 64)) % 64
  msg ++ [0x80] ++ List.replicate k 0 ++ beBytes 8 (len * 8)

/-- Split into 64-byte blocks (fuel keeps the recursion structural). -/
def chunksAux : Nat → List Nat → List (List Nat)
  | 0, _ => []
  | _, [] => []
  | fuel + 1, l => l.take 64 :: chunksAux fuel (l.drop 64)

def chunks64 (l : List Nat) : List (List Nat) := chunksAux l.length l

/-- Big-endian bytes to 32-bit words. -/
def bytesToWords : List Nat → List Nat
  | b0 :: b1 :: b2 :: b3 :: rest =>
    ((((b0 <<< 8) ||| b1) <<< 8 ||| b2) <<< 8 ||| b3) :: bytesToWords rest
  | _ => []

/-- Message-schedule extension; `acc` holds the words most recent
first. -/
def extendW : Nat → List Nat → List Nat
  | 0, acc => acc
  | n + 1, acc =>
    let wt := (smallSigma1 (acc.getD 1 0) + acc.getD 6 0
      + smallSigma0 (acc.getD 14 0) + acc.getD 15 0) % M32
    extendW n (wt :: acc)

/-- One compression round on the state `[a,b,c,d,e,f,g,h]`. -/
def compressRound (st : List Nat) (kw : Nat × Nat) : List Nat :=
  match st with
  | [a, b, c, d, e, f, g, h] =>
    let t1 := (h + bigSigma1 e + chF e f g + kw.1 + kw.2) % M32
    let t2 := (bigSigma0 a + majF a b c) % M32
    [(t1 + t2) % M32, a, b, c, (d + t1) % M32, e, f, g]
  | st => st

/-- Process one 64-byte block. -/
def processBlock (h : List Nat) (block : List Nat) : List Nat :=
  let w := (extendW 48 (bytesToWords block).reverse).reverse
  let st := (K.zip w).foldl compressRound h
  (h.zip st).map (fun p => (p.1 + p.2) % M32)

/-- SHA-256 of a byte string, as the eight 32-bit state words. -/
def sha256 (msg : List Nat) : List Nat :=
  (chunks64 (padMessage msg)).foldl processBlock H0

/-- `hashlib.sha256(...).hexdigest()`. -/
def sha256hex (msg : List Nat) : String :=
  String.mk ((sha256 msg).foldr (fun w acc => toHexAux 8 w ++ acc) [])

/-- `WorkflowRegistry._calculate_hash`: hash the sorted-keys
serialization and prefix the hex digest with `"sha256:"`. -/
def calculateHash (t : JVal) : String :=
  "sha256:" ++ sha256hex (utf8Bytes (pyDumps t))

/-- The override-file record `_generate_override_file` writes, with the
hash the discovery flow passes in (`current_hash = _calculate_hash(t)`).
`genAt`, `name`, `description` and the extracted parameter entries do not
affect the claim and are carried opaquely. -/
def generateOverrideData (t : JVal) (genAt name description : String)
    (params : JVal) : List (String × JVal) :=
  [("workflow_hash", .str (calculateHash t)),
   ("generated_at", .str genAt),
   ("workflow_name", .str name),
   ("description", .str description),
   ("parameters", params)]

end Hashing

/-! ## C5 — DAG planner

From `temporal_sdk/chains/interpreter.py`
(`ChainInterpreter.create_execution_plan`), which drives
`graphlib.TopologicalSorter`: `prepare()` then repeatedly `get_ready()` —
the set of nodes all of whose unprocessed predecessors are gone — marking
every returned node `done()`, each batch becoming one level.  The loop is
modelled on finite sets with explicit fuel (`graphlib` loops while
`is_active()`; any fuel at least the number of steps is enough, and the
planner passes exactly that). -/

namespace Planner

/-- One chain step as the planner sees it. -/
structure StepNode where
  id : String
  depends_on : List String
deriving Repr, DecidableEq

/-- The set of step ids. -/
def stepIds (steps : List StepNode) : Finset String :=
  (steps.map StepNode.id).toFinset

/-- The dependencies of a step id (validated chains have unique ids, so
the first match is the step). -/
def depsOf (steps : List StepNode) (i : String) : Finset String :=
  match steps.find? (fun s => s.id == i) with
  | some s => s.depends_on.toFinset
  | none => ∅

/-- `get_ready()`: the remaining nodes with no remaining dependency. -/
def ready (steps : List StepNode) (remaining : Finset String) :
    Finset String :=
  remaining.filter (fun i => depsOf steps i ∩ remaining = ∅)

/-- The `while is_active()` loop: one level per iteration. -/
def kahnAux (steps : List StepNode) : Nat → Finset String → List (Finset String)
  | 0, _ => []
  | fuel + 1, remaining =>
    if remaining = ∅ then []
    else
      let r := ready steps remaining
      if r = ∅ then []
      else r :: kahnAux steps fuel (remaining \ r)

/-- The planner's levels (`plan.levels[i]` as sets of step ids). -/
def kahnLevels (steps : List StepNode) : List (Finset String) :=
  kahnAux steps (stepIds steps).card (stepIds steps)

/-- The dependency edge: `x` depends on `y`. -/
def edgeTo (steps : List StepNode) (x y : String) : Prop :=
  y ∈ depsOf steps x

/-- Acyclicity of the dependency graph: no id reaches itself through a
nonempty chain of `depends_on` edges. -/
def Acyclic (steps : List StepNode) : Prop :=
  ∀ x, ¬ Relation.TransGen (edgeTo steps) x x

end Planner

-- ===== THEOREMS =====

namespace ChainVal

/-- `validate_steps` succeeds exactly when the step ids are pairwise
distinct. -/
theorem validateSteps_iff (steps : List StepDef) :
    validateSteps steps = true ↔ (steps.map StepDef.id).Nodup := by
  unfold validateSteps
  rw [beq_iff_eq]
  constructor
  · intro h
    have hsub : (steps.map StepDef.id).dedup.Sublist (steps.map StepDef.id) :=
      List.dedup_sublist _
    have : (steps.map StepDef.id).dedup = steps.map StepDef.id :=
      hsub.eq_of_length h
    rw [← this]
    exact List.nodup_dedup _
  · intro h
    rw [List.Nodup.dedup h]

/-- `'_'` and `'-'` are not alphanumeric for Python. -/
theorem not_alnum_underscore : pyIsAlnumChar '_' = false := by decide

theorem not_alnum_hyphen : pyIsAlnumChar '-' = false := by decide

/-- `validate_id` succeeds exactly on the amended condition: only
Python-alphanumeric characters, underscores and hyphens, at least one of
them alphanumeric. -/
theorem validateId_iff (s : String) :
    validateId s = true ↔ amendedIdCondition s = true := by
  unfold validateId pyIsAlnum amendedIdCondition
  simp only [Bool.and_eq_true, Bool.not_eq_true', Bool.or_eq_true,
    List.all_eq_true, List.any_eq_true, beq_iff_eq, beq_eq_false_iff_ne,
    ne_eq, List.isEmpty_eq_false_iff_exists_mem, List.mem_filter]
  constructor
  · rintro ⟨-, ⟨c, hc, hkeep⟩, hall⟩
    refine ⟨fun d hd => ?_, c, hc, hall c ⟨hc, hkeep⟩⟩
    by_cases hu : d = '_'
    · exact Or.inl (Or.inr hu)
    · by_cases hh : d = '-'
      · exact Or.inr hh
      · exact Or.inl (Or.inl (hall d ⟨hd, hu, hh⟩))
  · rintro ⟨hall, c, hc, halnum⟩
    have hcu : ¬(c = '_') := fun h => by
      rw [h] at halnum; exact absurd halnum (by decide)
    have hch : ¬(c = '-') := fun h => by
      rw [h] at halnum; exact absurd halnum (by decide)
    refine ⟨?_, ⟨c, hc, hcu, hch⟩, ?_⟩
    · intro h
      rw [h] at hc
      simp at hc
    · rintro d ⟨hd, hdu, hdh⟩
      rcases hall d hd with (h | h) | h
      · exact h
      · exact absurd h hdu
      · exact absurd h hdh

/-- C7, counterexample: the chain definition whose single step has id
`"é"` is accepted by `load_from_dict` — Python's Unicode-aware `isalnum`
accepts `é` (U+00E9) — although `"é"` does not match the claim's pattern
`[A-Za-z0-9_-]+`, so the claimed `ChainValidationError` is not raised. -/
theorem loadFromDict_claim_C7_counterexample :
    loadFromDict "pipeline" [⟨"é"⟩] = .ok ("pipeline", [⟨"é"⟩])
      ∧ matchesClaimPattern "é" = false := by
  constructor
  · rfl
  · rfl

/-- C7 (amended): a chain definition is accepted iff its step ids are
pairwise distinct and every step id consists solely of Python-alphanumeric
characters (Unicode sense), underscores and hyphens, with at least one
alphanumeric character among them.  In particular non-ASCII alphanumeric
ids are accepted and ids made only of underscores/hyphens are rejected;
any violation raises `ChainValidationError`. -/
theorem loadFromDict_claim_C7 (name : String) (steps : List StepDef) :
    (∃ r, loadFromDict name steps = .ok r) ↔
      ((steps.map StepDef.id).Nodup
        ∧ ∀ s ∈ steps, amendedIdCondition s.id = true) := by
  unfold loadFromDict
  by_cases hids : steps.all (fun s => validateId s.id) = true
  · rw [if_pos hids]
    by_cases hsteps : validateSteps steps = true
    · rw [if_pos hsteps]
      simp only [List.all_eq_true] at hids
      constructor
      · intro _
        exact ⟨(validateSteps_iff steps).1 hsteps,
          fun s hs => (validateId_iff s.id).1 (hids s hs)⟩
      · intro _
        exact ⟨(name, steps), rfl⟩
    · rw [if_neg hsteps]
      constructor
      · rintro ⟨r, hr⟩
        cases hr
      · rintro ⟨hnodup, -⟩
        exact absurd ((validateSteps_iff steps).2 hnodup) hsteps
  · rw [if_neg hids]
    constructor
    · rintro ⟨r, hr⟩
      cases hr
    · rintro ⟨-, hall⟩
      refine absurd ?_ hids
      simp only [List.all_eq_true]
      exact fun s hs => (validateId_iff s.id).2 (hall s hs)

end ChainVal

namespace ApprovalVal

/-- C10: a Python boolean passes type validation against a parameter whose
declared type is `int` or `float` — `bool` is a subclass of `int` and
`_validate_type` has no separate guard — so `validate_parameters` reports
the parameter map valid with no errors. -/
theorem validateParameters_claim_C10 (registry : List (String × List ParamInfo))
    (wfName : String) (params : List ParamInfo) (key : String) (b : Bool)
    (ptype : String)
    (hreg : registry.find? (fun w => w.1 == wfName) = some (wfName, params))
    (hkey : params.find? (fun p => p.key == key) = some ⟨key, ptype⟩)
    (htype : ptype = "int" ∨ ptype = "float") :
    validateParameters registry wfName [(key, .bool b)] = (true, []) := by
  rcases htype with h | h <;> subst h <;>
    simp [validateParameters, hreg, hkey, validateType, isInstInt,
      isInstIntOrFloat]

/-- C10, witness: a declared-`int` parameter accepts `True`. -/
theorem validateParameters_claim_C10_witness :
    validateParameters [("wf", [⟨"3.seed", "int"⟩])] "wf"
      [("3.seed", .bool true)] = (true, []) :=
  validateParameters_claim_C10 [("wf", [⟨"3.seed", "int"⟩])] "wf"
    [⟨"3.seed", "int"⟩] "3.seed" true "int" rfl rfl (Or.inl rfl)

end ApprovalVal

namespace Tracker

/-- Once `_set_result` has stored a result, later calls do not replace
it. -/
theorem foldl_setResult_some (rest : List TrackingResult)
    (r : TrackingResult) : rest.foldl setResult (some r) = some r := by
  induction rest with
  | nil => rfl
  | cons x xs ih => exact ih

/-- C8: if neither task records a result before the deadline, `track`
returns an error result whose message says tracking timed out (with the
default timeout of 600 seconds); and the first result recorded by either
task is the one `track` returns — a later result from the other task never
replaces it. -/
theorem track_claim_C8 (timeoutRepr : String) :
    (track [] timeoutRepr =
      { status := .error,
        historyData := none,
        error := some ("Tracking timed out after " ++ timeoutRepr
          ++ " seconds") })
    ∧ (∀ (r : TrackingResult) (rest : List TrackingResult),
        track (r :: rest) timeoutRepr = r)
    ∧ defaultTimeoutSeconds = 600 := by
  refine ⟨rfl, fun r rest => ?_, rfl⟩
  unfold track
  rw [List.foldl_cons]
  show (match rest.foldl setResult (some r) with
    | some r => r
    | none => timeoutResult timeoutRepr) = r
  rw [foldl_setResult_some]

end Tracker

namespace ChainExec

/-- The regeneration loop never produces a step result, however many
iterations are unrolled. -/
theorem regenLoop_stillLooping (n : Nat) :
    (regenLoop n).2 = .stillLooping := by
  induction n with
  | zero => rfl
  | succ n ih => exact ih

/-- Every effect the regeneration loop emits is one of the three in-loop
activities. -/
theorem regenLoop_effects (n : Nat) :
    ∀ e ∈ (regenLoop n).1, e = Effect.resolveTemplates
      ∨ e = Effect.applyParams ∨ e = Effect.selectServer := by
  induction n with
  | zero => intro e he; cases he
  | succ n ih =>
    intro e he
    rw [regenLoop] at he
    simp only [List.mem_append, List.mem_cons, List.not_mem_nil] at he
    rcases he with (h | h | h | h) | h
    · exact Or.inl h
    · exact Or.inr (Or.inl h)
    · exact Or.inr (Or.inr h)
    · cases h
    · exact ih e h

/-- C1: for a node whose condition is absent or evaluates true,
`_execute_step` never returns — the `while True:` regeneration loop has no
exit — so no `Job` row is created (`create_workflow_record` is never
executed) and no child workflow is started, contradicting the claimed
behaviour.  This supports the code-bug verdict: steps 5-9 of the function
body sit after the loop and are unreachable. -/
theorem executeStep_claim_C1 (fuel : Nat) (stepId : String)
    (condition : Option Bool)
    (h : condition = none ∨ condition = some true) :
    (executeStep fuel stepId condition).2 = .stillLooping
    ∧ Effect.createWorkflowRecord ∉ (executeStep fuel stepId condition).1
    ∧ Effect.startChildWorkflow ∉ (executeStep fuel stepId condition).1 := by
  have hloop := regenLoop_stillLooping fuel
  have heff := regenLoop_effects fuel
  rcases h with h | h <;> subst h
  · refine ⟨hloop, ?_, ?_⟩
    · intro hmem
      rcases heff _ hmem with h | h | h <;> cases h
    · intro hmem
      rcases heff _ hmem with h | h | h <;> cases h
  · refine ⟨hloop, ?_, ?_⟩
    · intro hmem
      rw [executeStep] at hmem
      simp only [List.cons_append, List.nil_append, List.mem_cons] at hmem
      rcases hmem with h | hmem
      · cases h
      · rcases heff _ hmem with h | h | h <;> cases h
    · intro hmem
      rw [executeStep] at hmem
      simp only [List.cons_append, List.nil_append, List.mem_cons] at hmem
      rcases hmem with h | hmem
      · cases h
      · rcases heff _ hmem with h | h | h <;> cases h

/-- C1, witness: a concrete conditionless node with three loop iterations
unrolled — still looping, no job row, no child workflow. -/
theorem executeStep_claim_C1_witness :
    (ChainExec.executeStep 3 "stepA" none).2 = .stillLooping
    ∧ Effect.createWorkflowRecord ∉ (ChainExec.executeStep 3 "stepA" none).1
    ∧ Effect.startChildWorkflow ∉ (ChainExec.executeStep 3 "stepA" none).1 :=
  executeStep_claim_C1 3 "stepA" none (Or.inl rfl)

end ChainExec

namespace Approval

/-- C6 (amended): a non-`pending` approval request is left entirely
unchanged by `approve_approval_request`, `reject_approval_request` and
`cancel_approval_request` (so a pending request becomes terminal exactly
once); and `validate_approval_link` reports a token valid exactly while
the request exists, its status is `pending`, and its `link_expires_at` is
either unset (such a link never expires) or not in the past. -/
theorem approval_claim_C6 (rows : List ApprovalRow) (rid token : String)
    (decided_by : Option String) (now : Nat) (r : ApprovalRow)
    (hr : getApprovalRequest rows rid = some r)
    (hst : r.status ≠ "pending") :
    (approveApprovalRequest rows rid decided_by now = rows
      ∧ rejectApprovalRequest rows rid decided_by now = rows
      ∧ cancelApprovalRequest rows rid now = rows)
    ∧ ((validateApprovalLink rows token now).1 = true ↔
        ∃ q, getByToken rows token = some q ∧ q.status = "pending"
          ∧ (q.link_expires_at = none
            ∨ ∃ e, q.link_expires_at = some e ∧ now ≤ e)) := by
  have hb : (r.status == "pending") = false := beq_eq_false_iff_ne.mpr hst
  refine ⟨⟨?_, ?_, ?_⟩, ?_⟩
  · simp [approveApprovalRequest, hr, hb]
  · simp [rejectApprovalRequest, hr, hb]
  · simp [cancelApprovalRequest, hr, hb]
  · cases hq : getByToken rows token with
    | none => simp [validateApprovalLink, hq]
    | some q =>
      by_cases hqs : q.status = "pending"
      · cases hle : q.link_expires_at with
        | none => simp [validateApprovalLink, hq, hqs, hle]
        | some e =>
          by_cases he : e < now
          · simp [validateApprovalLink, hq, hqs, hle, he]
          · simp [validateApprovalLink, hq, hqs, hle, he]
            omega
      · have hbq : (q.status == "pending") = false := beq_eq_false_iff_ne.mpr hqs
        simp [validateApprovalLink, hq, hbq, hqs]

/-- C6, counterexample: a pending request created without a link
expiration (`link_expiration_hours=None`, the default) has
`link_expires_at = None`; `validate_approval_link` reports its token
valid — here at time 100, and at any later time — although no
`link_expires_at` lies in the future, refuting "valid only while ...
`link_expires_at` is in the future". -/
theorem approval_claim_C6_counterexample :
    validateApprovalLink [⟨"r1", "tok", "pending", none, none, none⟩]
        "tok" 100 = (true, none)
    ∧ getByToken [⟨"r1", "tok", "pending", none, none, none⟩] "tok"
        = some ⟨"r1", "tok", "pending", none, none, none⟩
    ∧ (ApprovalRow.link_expires_at ⟨"r1", "tok", "pending", none, none, none⟩
        = none)
    ∧ validateApprovalLink [⟨"r1", "tok", "pending", none, none, none⟩]
        "tok" 1000000000 = (true, none) := by
  refine ⟨rfl, rfl, rfl, rfl⟩

/-- C6, witness: a decided (`approved`) request is untouched by all three
decision operations, and its token no longer validates. -/
theorem approval_claim_C6_witness :
    (approveApprovalRequest [⟨"r1", "tok", "approved", some "u", some 3, none⟩]
        "r1" (some "u2") 5
        = [⟨"r1", "tok", "approved", some "u", some 3, none⟩]
      ∧ rejectApprovalRequest [⟨"r1", "tok", "approved", some "u", some 3, none⟩]
        "r1" (some "u2") 5
        = [⟨"r1", "tok", "approved", some "u", some 3, none⟩]
      ∧ cancelApprovalRequest [⟨"r1", "tok", "approved", some "u", some 3, none⟩]
        "r1" 5
        = [⟨"r1", "tok", "approved", some "u", some 3, none⟩])
    ∧ ((validateApprovalLink [⟨"r1", "tok", "approved", some "u", some 3, none⟩]
        "tok" 5).1 = true ↔
        ∃ q, getByToken [⟨"r1", "tok", "approved", some "u", some 3, none⟩]
            "tok" = some q ∧ q.status = "pending"
          ∧ (q.link_expires_at = none
            ∨ ∃ e, q.link_expires_at = some e ∧ 5 ≤ e)) :=
  approval_claim_C6 [⟨"r1", "tok", "approved", some "u", some 3, none⟩]
    "r1" "tok" (some "u2") 5 ⟨"r1", "tok", "approved", some "u", some 3, none⟩
    rfl (by decide)

end Approval

namespace Registry

/-- C9: `apply_overrides` is idempotent — it mutates neither the registry
maps nor the template file, so a second call with the same workflow name
and override map, run from the state the first call leaves behind,
produces the same bound workflow document. -/
theorem applyOverrides_claim_C9 (st : RegistryState) (name : String)
    (ovs : List (String × JVal)) (doc : JVal)
    (h : (applyOverrides st name ovs).1 = .ok doc) :
    (applyOverrides (applyOverrides st name ovs).2 name ovs).1 = .ok doc :=
  h

/-- C9, witness: a one-parameter workflow, overriding `3.text`; the
second application returns the same bound document as the first. -/
theorem applyOverrides_claim_C9_witness :
    (applyOverrides
      ((applyOverrides
        ⟨[("wf", [⟨"3.text", "3", "text"⟩])],
         [("wf", JVal.obj [("3", .obj [("class_type", .str "T"),
            ("inputs", .obj [("text", .str "hi")])])])]⟩
        "wf" [("3.text", .str "bye")]).2)
      "wf" [("3.text", .str "bye")]).1
    = .ok (JVal.obj [("3", .obj [("class_type", .str "T"),
        ("inputs", .obj [("text", .str "bye")])])]) :=
  applyOverrides_claim_C9
    ⟨[("wf", [⟨"3.text", "3", "text"⟩])],
     [("wf", JVal.obj [("3", .obj [("class_type", .str "T"),
        ("inputs", .obj [("text", .str "hi")])])])]⟩
    "wf" [("3.text", .str "bye")]
    (JVal.obj [("3", .obj [("class_type", .str "T"),
        ("inputs", .obj [("text", .str "bye")])])])
    rfl

end Registry

namespace ArtifactDb

theorem beq_false_of_ne {x y : String} (h : ¬(x = y)) : (x == y) = false :=
  beq_eq_false_iff_ne.mpr h

theorem demote_id (wid aid : String) (a : ArtifactRow) :
    (demote wid aid a).id = a.id := by
  unfold demote; split <;> rfl

theorem demote_wid (wid aid : String) (a : ArtifactRow) :
    (demote wid aid a).workflow_id = a.workflow_id := by
  unfold demote; split <;> rfl

theorem setFlagOf_id (aid : String) (b : Bool) (a : ArtifactRow) :
    (setFlagOf aid b a).id = a.id := by
  unfold setFlagOf; split <;> rfl

theorem setFlagOf_wid (aid : String) (b : Bool) (a : ArtifactRow) :
    (setFlagOf aid b a).workflow_id = a.workflow_id := by
  unfold setFlagOf; split <;> rfl

theorem jobPoint_id (wid aid : String) (j : JobRow) :
    (jobPoint wid aid j).id = j.id := by
  unfold jobPoint; split <;> rfl

/-- Filtering after a row-map that neither moves rows into nor out of the
filter, and fixes the selected rows, is filtering alone. -/
theorem filter_map_eq_filter {g : ArtifactRow → ArtifactRow}
    {p : ArtifactRow → Bool} {A : List ArtifactRow}
    (hpg : ∀ a ∈ A, p (g a) = p a)
    (hfix : ∀ a ∈ A, p a = true → g a = a) :
    (A.map g).filter p = A.filter p := by
  rw [List.filter_map]
  simp only [Function.comp_def]
  rw [List.filter_congr hpg]
  have : ∀ a ∈ A.filter p, g a = a := by
    intro a ha
    rw [List.mem_filter] at ha
    exact hfix a ha.1 ha.2
  rw [List.map_congr_left this]
  simp

/-- Filtering after a row-map that moves every row out of the filter. -/
theorem filter_map_eq_nil {g : ArtifactRow → ArtifactRow}
    {p : ArtifactRow → Bool} {A : List ArtifactRow}
    (h : ∀ a ∈ A, p (g a) = false) :
    (A.map g).filter p = [] := by
  rw [List.filter_map]
  simp only [Function.comp_def]
  rw [List.filter_eq_nil_iff.mpr, List.map_nil]
  intro a ha
  simp [h a ha]

theorem filter_by_id_eq {A : List ArtifactRow} {aid : String} {art : ArtifactRow}
    (hN : (A.map ArtifactRow.id).Nodup)
    (hfind : A.find? (fun a => a.id == aid) = some art)
    (p : ArtifactRow → Bool) (hart : p art = true)
    (hp : ∀ a ∈ A, p a = true → a.id = aid) :
    A.filter p = [art] := by
  induction A with
  | nil => cases hfind
  | cons a A ih =>
    by_cases ha : (a.id == aid) = true
    · rw [@List.find?_cons_of_pos _ (fun x => x.id == aid) a A ha] at hfind
      have haa : art = a := by cases hfind; rfl
      subst haa
      rw [List.filter_cons_of_pos hart]
      have hnil : A.filter p = [] := by
        rw [List.filter_eq_nil_iff]
        intro b hb hpb
        have hbid : b.id = aid := hp b (List.mem_cons_of_mem _ hb) hpb
        have hartid : art.id = aid := by simpa using ha
        rw [List.map_cons, List.nodup_cons] at hN
        have hmm : art.id ∈ A.map ArtifactRow.id := by
          rw [hartid, ← hbid]
          exact List.mem_map_of_mem _ hb
        exact hN.1 hmm
      rw [hnil]
    · rw [@List.find?_cons_of_neg _ (fun x => x.id == aid) a A ha] at hfind
      rw [List.map_cons, List.nodup_cons] at hN
      have hrec := ih hN.2 hfind (fun b hb hpb => hp b (List.mem_cons_of_mem _ hb) hpb)
      have hpa : ¬(p a = true) := by
        intro hcon
        exact ha (by simpa using hp a (List.mem_cons_self _ _) hcon)
      rw [List.filter_cons_of_neg hpa, hrec]

end ArtifactDb

namespace ArtifactDb

theorem createArtifact_artifacts (st : DbState) (aid wid : String) :
    (createArtifact st aid wid true).artifacts
      = st.artifacts.map (demote wid aid) ++ [⟨aid, wid, true⟩] := by
  unfold createArtifact
  simp [demote]

theorem createArtifact_jobs (st : DbState) (aid wid : String) :
    (createArtifact st aid wid true).jobs
      = st.jobs.map (jobPoint wid aid) := rfl

theorem latestOf_create_ne (st : DbState) (aid wid w : String)
    (hw : ¬(w = wid)) :
    latestOf (createArtifact st aid wid true) w = latestOf st w := by
  unfold latestOf
  rw [createArtifact_artifacts, List.filter_append]
  have hwbeq : (wid == w) = false := beq_false_of_ne (fun h => hw h.symm)
  have hnew : (List.filter (fun a => a.workflow_id == w && a.is_latest)
      [(⟨aid, wid, true⟩ : ArtifactRow)]) = [] := by
    simp [List.filter, hwbeq]
  rw [hnew, List.append_nil]
  apply filter_map_eq_filter
  · intro a _
    by_cases haw : a.workflow_id = wid
    · have h1 : ((demote wid aid a).workflow_id == w) = false := by
        rw [demote_wid, haw]; exact hwbeq
      have h2 : (a.workflow_id == w) = false := by
        rw [haw]; exact hwbeq
      simp [h1, h2]
    · have hg : demote wid aid a = a := by
        unfold demote
        rw [if_neg]
        simp only [Bool.and_eq_true, beq_iff_eq, not_and]
        intro hc
        exact absurd hc haw
      rw [hg]
  · intro a _ hpa
    have haw : a.workflow_id = w := by
      simp only [Bool.and_eq_true, beq_iff_eq] at hpa
      exact hpa.1
    unfold demote
    rw [if_neg]
    simp only [Bool.and_eq_true, beq_iff_eq, not_and]
    intro hc
    exact absurd (haw.symm.trans hc) hw

theorem artifactsOf_create_ne (st : DbState) (aid wid w : String)
    (hw : ¬(w = wid)) :
    artifactsOf (createArtifact st aid wid true) w = artifactsOf st w := by
  unfold artifactsOf
  rw [createArtifact_artifacts, List.filter_append]
  have hwbeq : (wid == w) = false := beq_false_of_ne (fun h => hw h.symm)
  have hnew : (List.filter (fun a => a.workflow_id == w)
      [(⟨aid, wid, true⟩ : ArtifactRow)]) = [] := by
    simp [List.filter, hwbeq]
  rw [hnew, List.append_nil]
  apply filter_map_eq_filter
  · intro a _
    rw [demote_wid]
  · intro a _ hpa
    have haw : a.workflow_id = w := by simpa using hpa
    unfold demote
    rw [if_neg]
    simp only [Bool.and_eq_true, beq_iff_eq, not_and]
    intro hc
    exact absurd (haw.symm.trans hc) hw

theorem latestOf_create_eq (st : DbState) (aid wid : String)
    (hfresh : ∀ a ∈ st.artifacts, ¬(a.id = aid)) :
    latestOf (createArtifact st aid wid true) wid = [⟨aid, wid, true⟩] := by
  unfold latestOf
  rw [createArtifact_artifacts, List.filter_append]
  have hmain : (st.artifacts.map (demote wid aid)).filter
      (fun a => a.workflow_id == wid && a.is_latest) = [] := by
    apply filter_map_eq_nil
    intro a ha
    by_cases haw : a.workflow_id = wid
    · have hcond : (a.workflow_id == wid && !(a.id == aid)) = true := by
        have h1 : (a.workflow_id == wid) = true := beq_iff_eq.mpr haw
        have h2 : (a.id == aid) = false := beq_false_of_ne (hfresh a ha)
        simp [h1, h2]
      unfold demote
      rw [if_pos hcond]
      simp
    · have hg : demote wid aid a = a := by
        unfold demote
        rw [if_neg]
        simp only [Bool.and_eq_true, beq_iff_eq, not_and]
        intro hc
        exact absurd hc haw
      rw [hg]
      simp [beq_false_of_ne haw]
  rw [hmain, List.nil_append]
  simp [List.filter]

end ArtifactDb

namespace ArtifactDb

theorem ids_create (st : DbState) (aid wid : String) :
    (createArtifact st aid wid true).artifacts.map ArtifactRow.id
      = st.artifacts.map ArtifactRow.id ++ [aid] := by
  rw [createArtifact_artifacts, List.map_append, List.map_map]
  congr 1
  apply List.map_congr_left
  intro a _
  exact demote_id wid aid a

theorem inv_createArtifact (st : DbState) (aid wid : String)
    (hInv : Inv st)
    (hfresh : ∀ a ∈ st.artifacts, ¬(a.id = aid)) :
    Inv (createArtifact st aid wid true) := by
  intro j' hj' hne
  rw [createArtifact_jobs] at hj'
  rcases List.mem_map.1 hj' with ⟨j, hj, rfl⟩
  rw [jobPoint_id]
  by_cases hjw : j.id = wid
  · have hlat : latestOf (createArtifact st aid wid true) j.id
        = [⟨aid, wid, true⟩] := by
      rw [hjw]; exact latestOf_create_eq st aid wid hfresh
    refine ⟨by rw [hlat]; rfl, ?_⟩
    rw [hlat]
    show (jobPoint wid aid j).latest_artifact_id = some aid
    unfold jobPoint
    rw [if_pos (beq_iff_eq.mpr hjw)]
  · have hlat := latestOf_create_ne st aid wid j.id hjw
    have harts := artifactsOf_create_ne st aid wid j.id hjw
    rw [jobPoint_id] at hne
    rw [harts] at hne
    have hj' := hInv j hj hne
    rw [hlat]
    refine ⟨hj'.1, ?_⟩
    show (jobPoint wid aid j).latest_artifact_id = _
    unfold jobPoint
    rw [if_neg (by simp [hjw])]
    exact hj'.2

theorem nodup_createArtifact (st : DbState) (aid wid : String)
    (hN : (st.artifacts.map ArtifactRow.id).Nodup)
    (hfresh : ∀ a ∈ st.artifacts, ¬(a.id = aid)) :
    ((createArtifact st aid wid true).artifacts.map ArtifactRow.id).Nodup := by
  rw [ids_create]
  rw [List.nodup_append]
  refine ⟨hN, List.nodup_singleton _, ?_⟩
  intro x hx hx'
  rcases List.mem_map.1 hx with ⟨a, ha, rfl⟩
  rw [List.mem_singleton] at hx'
  exact hfresh a ha hx'

end ArtifactDb

namespace ArtifactDb

theorem eq_art_of_id {A : List ArtifactRow} {aid : String} {art a : ArtifactRow}
    (hN : (A.map ArtifactRow.id).Nodup)
    (hfind : A.find? (fun x => x.id == aid) = some art)
    (ha : a ∈ A) (haid : a.id = aid) : a = art := by
  have hart_mem := List.mem_of_find?_eq_some hfind
  have hart_id : art.id = aid := by simpa using List.find?_some hfind
  exact List.inj_on_of_nodup_map hN ha hart_mem (by rw [haid, hart_id])

theorem update_some_artifacts (st : DbState) (aid : String) (art : ArtifactRow)
    (hfind : getArtifact st aid = some art) :
    (updateArtifactLatestFlag st aid true).artifacts
      = st.artifacts.map
          ((setFlagOf aid true) ∘ (demote art.workflow_id aid)) := by
  simp [updateArtifactLatestFlag, hfind, List.map_map]

theorem update_some_jobs (st : DbState) (aid : String) (art : ArtifactRow)
    (hfind : getArtifact st aid = some art) :
    (updateArtifactLatestFlag st aid true).jobs
      = st.jobs.map (jobPoint art.workflow_id aid) := by
  simp [updateArtifactLatestFlag, hfind]

theorem update_none (st : DbState) (aid : String) (b : Bool)
    (hfind : getArtifact st aid = none) :
    updateArtifactLatestFlag st aid b = st := by
  simp [updateArtifactLatestFlag, hfind]

theorem g_art (aid : String) (art : ArtifactRow) (hart_id : art.id = aid) :
    (setFlagOf aid true ∘ demote art.workflow_id aid) art
      = { art with is_latest := true } := by
  have h1 : demote art.workflow_id aid art = art := by
    unfold demote
    rw [if_neg]
    simp [hart_id]
  show setFlagOf aid true (demote art.workflow_id aid art) = _
  rw [h1]
  unfold setFlagOf
  rw [if_pos (beq_iff_eq.mpr hart_id)]

theorem g_skip (aid : String) (wid : String) (a : ArtifactRow)
    (haid : ¬(a.id = aid)) (haw : ¬(a.workflow_id = wid)) :
    (setFlagOf aid true ∘ demote wid aid) a = a := by
  show setFlagOf aid true (demote wid aid a) = a
  have h1 : demote wid aid a = a := by
    unfold demote
    rw [if_neg]
    simp only [Bool.and_eq_true, beq_iff_eq, not_and]
    intro hc
    exact absurd hc haw
  rw [h1]
  unfold setFlagOf
  rw [if_neg (by simp [haid])]

theorem g_demoted (aid : String) (wid : String) (a : ArtifactRow)
    (haid : ¬(a.id = aid)) (haw : a.workflow_id = wid) :
    (setFlagOf aid true ∘ demote wid aid) a
      = { a with is_latest := false } := by
  show setFlagOf aid true (demote wid aid a) = _
  have h1 : demote wid aid a = { a with is_latest := false } := by
    unfold demote
    rw [if_pos]
    simp [beq_iff_eq.mpr haw, beq_false_of_ne haid]
  rw [h1]
  unfold setFlagOf
  rw [if_neg (by simp [haid])]

end ArtifactDb

namespace ArtifactDb

theorem latestOf_update_ne (st : DbState) (aid : String) (art : ArtifactRow)
    (hfind : getArtifact st aid = some art)
    (hN : (st.artifacts.map ArtifactRow.id).Nodup)
    (w : String) (hw : ¬(w = art.workflow_id)) :
    latestOf (updateArtifactLatestFlag st aid true) w = latestOf st w := by
  unfold latestOf
  rw [update_some_artifacts st aid art hfind]
  apply filter_map_eq_filter
  · intro a ha
    by_cases haid : a.id = aid
    · have haa : a = art := eq_art_of_id hN hfind ha haid
      subst haa
      rw [g_art aid a haid]
      have : (a.workflow_id == w) = false :=
        beq_false_of_ne (fun h => hw h.symm)
      simp [this]
    · by_cases haw : a.workflow_id = art.workflow_id
      · rw [g_demoted aid art.workflow_id a haid haw]
        have : (a.workflow_id == w) = false := by
          rw [haw]; exact beq_false_of_ne (fun h => hw h.symm)
        simp [this]
      · rw [g_skip aid art.workflow_id a haid haw]
  · intro a ha hpa
    have haw : a.workflow_id = w := by
      simp only [Bool.and_eq_true, beq_iff_eq] at hpa
      exact hpa.1
    by_cases haid : a.id = aid
    · have haa : a = art := eq_art_of_id hN hfind ha haid
      exact absurd (haa ▸ haw).symm hw
    · apply g_skip aid art.workflow_id a haid
      intro hc
      exact hw (haw.symm.trans hc)

end ArtifactDb

namespace ArtifactDb

theorem artifactsOf_update_ne (st : DbState) (aid : String) (art : ArtifactRow)
    (hfind : getArtifact st aid = some art)
    (hN : (st.artifacts.map ArtifactRow.id).Nodup)
    (w : String) (hw : ¬(w = art.workflow_id)) :
    artifactsOf (updateArtifactLatestFlag st aid true) w = artifactsOf st w := by
  unfold artifactsOf
  rw [update_some_artifacts st aid art hfind]
  apply filter_map_eq_filter
  · intro a _
    show ((setFlagOf aid true (demote art.workflow_id aid a)).workflow_id == w)
      = (a.workflow_id == w)
    rw [setFlagOf_wid, demote_wid]
  · intro a ha hpa
    have haw : a.workflow_id = w := by simpa using hpa
    by_cases haid : a.id = aid
    · have haa : a = art := eq_art_of_id hN hfind ha haid
      exact absurd (haa ▸ haw).symm hw
    · apply g_skip aid art.workflow_id a haid
      intro hc
      exact hw (haw.symm.trans hc)

theorem latestOf_update_eq (st : DbState) (aid : String) (art : ArtifactRow)
    (hfind : getArtifact st aid = some art)
    (hN : (st.artifacts.map ArtifactRow.id).Nodup) :
    latestOf (updateArtifactLatestFlag st aid true) art.workflow_id
      = [{ art with is_latest := true }] := by
  have hart_id : art.id = aid := by
    simpa using List.find?_some hfind
  unfold latestOf
  rw [update_some_artifacts st aid art hfind, List.filter_map]
  simp only [Function.comp_def]
  have hcong : st.artifacts.filter (fun a =>
      ((setFlagOf aid true (demote art.workflow_id aid a)).workflow_id
        == art.workflow_id)
      && (setFlagOf aid true (demote art.workflow_id aid a)).is_latest)
      = st.artifacts.filter (fun a => a.id == aid) := by
    apply List.filter_congr
    intro a ha
    by_cases haid : a.id = aid
    · have haa : a = art := eq_art_of_id hN hfind ha haid
      subst haa
      have hg := g_art aid a hart_id
      simp only [Function.comp_def] at hg
      rw [hg]
      simp [beq_iff_eq.mpr haid]
    · by_cases haw : a.workflow_id = art.workflow_id
      · have hg := g_demoted aid art.workflow_id a haid haw
        simp only [Function.comp_def] at hg
        rw [hg]
        simp [beq_false_of_ne haid]
      · have hg := g_skip aid art.workflow_id a haid haw
        simp only [Function.comp_def] at hg
        rw [hg]
        simp [beq_false_of_ne haw, beq_false_of_ne haid]
  rw [hcong]
  rw [filter_by_id_eq hN hfind (fun a => a.id == aid)
    (beq_iff_eq.mpr hart_id) (fun a _ h => by simpa using h)]
  rw [List.map_singleton]
  have hg := g_art aid art hart_id
  simp only [Function.comp_def] at hg
  rw [hg]

end ArtifactDb

namespace ArtifactDb

theorem inv_update_some (st : DbState) (aid : String) (art : ArtifactRow)
    (hfind : getArtifact st aid = some art)
    (hInv : Inv st)
    (hN : (st.artifacts.map ArtifactRow.id).Nodup) :
    Inv (updateArtifactLatestFlag st aid true) := by
  have hart_id : art.id = aid := by simpa using List.find?_some hfind
  intro j' hj' hne
  rw [update_some_jobs st aid art hfind] at hj'
  rcases List.mem_map.1 hj' with ⟨j, hj, rfl⟩
  rw [jobPoint_id]
  rw [jobPoint_id] at hne
  by_cases hjw : j.id = art.workflow_id
  · have hlat : latestOf (updateArtifactLatestFlag st aid true) j.id
        = [{ art with is_latest := true }] := by
      rw [hjw]; exact latestOf_update_eq st aid art hfind hN
    refine ⟨by rw [hlat]; rfl, ?_⟩
    rw [hlat]
    show (jobPoint art.workflow_id aid j).latest_artifact_id = some art.id
    unfold jobPoint
    rw [if_pos (beq_iff_eq.mpr hjw)]
    simpa using hart_id.symm
  · have hlat := latestOf_update_ne st aid art hfind hN j.id hjw
    have harts := artifactsOf_update_ne st aid art hfind hN j.id hjw
    rw [harts] at hne
    have hj2 := hInv j hj hne
    rw [hlat]
    refine ⟨hj2.1, ?_⟩
    show (jobPoint art.workflow_id aid j).latest_artifact_id = _
    unfold jobPoint
    rw [if_neg (by simp [hjw])]
    exact hj2.2

theorem ids_update_some (st : DbState) (aid : String) (art : ArtifactRow)
    (hfind : getArtifact st aid = some art) :
    (updateArtifactLatestFlag st aid true).artifacts.map ArtifactRow.id
      = st.artifacts.map ArtifactRow.id := by
  rw [update_some_artifacts st aid art hfind, List.map_map]
  apply List.map_congr_left
  intro a _
  show ArtifactRow.id (setFlagOf aid true (demote art.workflow_id aid a)) = a.id
  rw [setFlagOf_id, demote_id]

theorem opsOk_inv (ops : List ArtifactOp) :
    ∀ st, Inv st → (st.artifacts.map ArtifactRow.id).Nodup →
      opsOk st ops = true → Inv (applyOps st ops) := by
  induction ops with
  | nil => intro st hInv _ _; exact hInv
  | cons op rest ih =>
    intro st hInv hN hok
    rw [opsOk] at hok
    rw [Bool.and_eq_true] at hok
    obtain ⟨hop, hrest⟩ := hok
    show Inv (List.foldl applyOp st (op :: rest))
    rw [List.foldl_cons]
    cases op with
    | create aid wid l =>
      rw [opOk, Bool.and_eq_true] at hop
      obtain ⟨hl, hfr⟩ := hop
      have hfresh : ∀ a ∈ st.artifacts, ¬(a.id = aid) := by
        intro a ha
        have := (List.all_eq_true.1 hfr) a ha
        simpa using this
      cases l with
      | false => cases hl
      | true =>
        exact ih (applyOp st (.create aid wid true))
          (inv_createArtifact st aid wid hInv hfresh)
          (nodup_createArtifact st aid wid hN hfresh) hrest
    | setLatestFlag aid l =>
      rw [opOk] at hop
      cases l with
      | false => cases hop
      | true =>
        cases hfind : getArtifact st aid with
        | none =>
          have hx : applyOp st (.setLatestFlag aid true) = st :=
            update_none st aid true hfind
          rw [hx] at hrest ⊢
          exact ih st hInv hN hrest
        | some art =>
          have hN2 : ((applyOp st (.setLatestFlag aid true)).artifacts.map
              ArtifactRow.id).Nodup := by
            show ((updateArtifactLatestFlag st aid true).artifacts.map
              ArtifactRow.id).Nodup
            rw [ids_update_some st aid art hfind]
            exact hN
          exact ih (applyOp st (.setLatestFlag aid true))
            (inv_update_some st aid art hfind hInv hN) hN2 hrest
    | del aid => cases hop

end ArtifactDb

namespace ArtifactDb

/-- C2, counterexample: with job `j`, create artifact `a1` then `a2`
(both `is_latest=true`, the default) and then `delete_artifact a2`:
`a1` is left with `is_latest=false` and the job's `latest_artifact_id`
dangles at the deleted `a2`, so the state violates the invariant although
it was produced by the three claimed operations. -/
theorem artifact_claim_C2_counterexample :
    ¬ Inv (applyOps ⟨[⟨"j", none⟩], []⟩
      [.create "a1" "j" true, .create "a2" "j" true, .del "a2"]) := by
  decide

/-- C2 (amended): starting from a state with jobs but no artifacts, every
sequence of `create_artifact` calls that keep the default
`is_latest=true` and use fresh ids, and `update_artifact_latest_flag`
calls with `is_latest=true`, maintains the invariant: every job with at
least one artifact has exactly one `is_latest=true` artifact and its
`latest_artifact_id` references it.  (`delete_artifact` and the
`is_latest=false` variants can break the invariant, as the
counterexample shows; `update_artifact_latest_flag` also commits an
intermediate state mid-call, so the invariant is guaranteed at call
boundaries.) -/
theorem artifact_claim_C2 (jobs : List JobRow) (ops : List ArtifactOp)
    (hops : opsOk ⟨jobs, []⟩ ops = true) :
    Inv (applyOps ⟨jobs, []⟩ ops) := by
  apply opsOk_inv ops ⟨jobs, []⟩ ?_ (by simp) hops
  intro j _ hne
  exact absurd rfl hne

/-- C2, witness: two creations and a latest-flag flip back to `a1`. -/
theorem artifact_claim_C2_witness :
    opsOk ⟨[⟨"j", none⟩], []⟩
      [.create "a1" "j" true, .create "a2" "j" true,
        .setLatestFlag "a1" true] = true
    ∧ Inv (applyOps ⟨[⟨"j", none⟩], []⟩
      [.create "a1" "j" true, .create "a2" "j" true,
        .setLatestFlag "a1" true]) :=
  ⟨by decide, artifact_claim_C2 [⟨"j", none⟩]
    [.create "a1" "j" true, .create "a2" "j" true,
      .setLatestFlag "a1" true] (by decide)⟩

end ArtifactDb

namespace Templates

theorem resolveTemplates_claim_C4 (ctx : List (String × TVal))
    (k s p0 p1 : String) (ps : List String) (d : List (String × TVal))
    (hparse : parseTemplate s = some [.var (p0 :: p1 :: ps)])
    (hb1 : containsPair '\x7b' '\x7b' s.toList = true)
    (hb2 : containsPair '\x7d' '\x7d' s.toList = true) :
    (lookupT ctx p0 = none → resolveTemplates [(k, .str s)] ctx = .error ())
    ∧ (ps = [] → lookupT ctx p0 = some (.dict d) → lookupT d p1 = none →
        resolveTemplates [(k, .str s)] ctx = .ok [(k, .str "")]) := by
  have hb1' : containsPair '\x7b' '\x7b' s.data = true := hb1
  have hb2' : containsPair '\x7d' '\x7d' s.data = true := hb2
  constructor
  · intro hmiss
    simp [resolveTemplates, resolveDict, resolveValue, hb1', hb2', hparse,
      renderTemplate, renderVar, hmiss, renderSteps, getAttr]
  · rintro rfl hstep hfield
    simp [resolveTemplates, resolveDict, resolveValue, hb1', hb2', hparse,
      renderTemplate, renderVar, hstep, renderSteps, getAttr, hfield,
      jinjaStr]
    rfl

end Templates

namespace Templates

theorem resolveTemplates_claim_C4_counterexample :
    resolveTemplates [("p", .str "\x7b\x7b a.output.video \x7d\x7d")]
      [("a", TVal.dict [("output", .dict []), ("parameters", .dict []),
        ("status", .str "completed")])]
      = .ok [("p", .str "")]
    ∧ parseTemplate "\x7b\x7b a.output.video \x7d\x7d"
      = some [.var ["a", "output", "video"]]
    ∧ lookupT ([] : List (String × TVal)) "video" = none :=
  ⟨rfl, rfl, rfl⟩

theorem resolveTemplates_claim_C4_witness :
    resolveTemplates [("p", .str "\x7b\x7b a.output.video \x7d\x7d")]
      [("b", TVal.dict [])] = .error ()
    ∧ resolveTemplates [("q", .str "\x7b\x7b a.video \x7d\x7d")]
      [("a", TVal.dict [("output", .dict [])])] = .ok [("q", .str "")] :=
  ⟨(resolveTemplates_claim_C4 [("b", TVal.dict [])] "p"
      "\x7b\x7b a.output.video \x7d\x7d" "a" "output" ["video"] []
      rfl rfl rfl).1 rfl,
   (resolveTemplates_claim_C4 [("a", TVal.dict [("output", TVal.dict [])])]
      "q" "\x7b\x7b a.video \x7d\x7d" "a" "video" []
      [("output", TVal.dict [])] rfl rfl rfl).2 rfl rfl rfl⟩

end Templates

namespace Hashing

theorem intercalate_go (s : String) : ∀ (bs : List String) (a b : String),
    String.intercalate.go (a ++ s ++ b) s bs
      = a ++ s ++ String.intercalate.go b s bs
  | [], _, _ => rfl
  | c :: cs, a, b => by
    show String.intercalate.go (a ++ s ++ b ++ s ++ c) s cs
      = a ++ s ++ String.intercalate.go (b ++ s ++ c) s cs
    rw [show a ++ s ++ b ++ s ++ c = a ++ s ++ (b ++ s ++ c) by
      simp [String.append_assoc]]
    exact intercalate_go s cs a (b ++ s ++ c)

theorem intercalate_cons2 (s a b : String) (t : List String) :
    String.intercalate s (a :: b :: t)
      = a ++ s ++ String.intercalate s (b :: t) := by
  show String.intercalate.go (a ++ s ++ b) s t
    = a ++ s ++ String.intercalate.go b s t
  exact intercalate_go s t a b

mutual

theorem dumpsSorted_eq_amended : (v : JVal) → dumpsSorted v = amendedSerialize v
  | .null => rfl
  | .bool _ => rfl
  | .int _ => rfl
  | .str _ => rfl
  | .arr xs => by rw [dumpsSorted, amendedSerialize, dumpsSortedList_eq xs]
  | .obj kvs => by rw [dumpsSorted, amendedSerialize, dumpsSortedObj_eq kvs]

theorem dumpsSortedList_eq : (xs : List JVal) →
    dumpsSortedList xs = String.intercalate ", " (amendedSerializeList xs)
  | [] => rfl
  | [x] => by
    rw [dumpsSortedList]
    rw [show amendedSerializeList [x] = [amendedSerialize x] from rfl]
    rw [dumpsSorted_eq_amended x]
    rfl
  | x :: y :: xs => by
    rw [dumpsSortedList]
    rw [dumpsSorted_eq_amended x, dumpsSortedList_eq (y :: xs)]
    rw [show amendedSerializeList (x :: y :: xs)
      = amendedSerialize x :: amendedSerialize y :: amendedSerializeList xs
      from rfl]
    rw [show amendedSerializeList (y :: xs)
      = amendedSerialize y :: amendedSerializeList xs from rfl]
    rw [intercalate_cons2]

theorem dumpsSortedObj_eq : (kvs : List (String × JVal)) →
    dumpsSortedObj kvs = String.intercalate ", " (amendedSerializeObj kvs)
  | [] => rfl
  | [(k, v)] => by
    rw [dumpsSortedObj]
    rw [show amendedSerializeObj [(k, v)]
      = ["\"" ++ jsonEscape k ++ "\": " ++ amendedSerialize v] from rfl]
    rw [dumpsSorted_eq_amended v]
    rfl
  | (k, v) :: x :: kvs => by
    rw [dumpsSortedObj]
    rw [dumpsSorted_eq_amended v, dumpsSortedObj_eq (x :: kvs)]
    rw [show amendedSerializeObj ((k, v) :: x :: kvs)
      = ("\"" ++ jsonEscape k ++ "\": " ++ amendedSerialize v)
        :: amendedSerializeObj (x :: kvs) from rfl]
    rw [show amendedSerializeObj (x :: kvs)
      = ("\"" ++ jsonEscape x.1 ++ "\": " ++ amendedSerialize x.2)
        :: amendedSerializeObj kvs from rfl]
    rw [intercalate_cons2]

end

end Hashing

namespace Hashing

/-- `json.dumps(..., sort_keys=True)` is exactly the amended claim's
canonical form: recursively key-sorted with a space after each separator. -/
theorem pyDumps_eq_amendedCanonicalJson (t : JVal) :
    pyDumps t = amendedCanonicalJson t :=
  dumpsSorted_eq_amended (sortJVal t)

/-- C3, counterexample: for the template with keys `b`, `a`, the override
file stores `sha256:` plus the digest of the **spaced** serialization,
which differs from the SHA-256 hex digest of the no-whitespace canonical
JSON the claim prescribes. -/
theorem hashing_claim_C3_counterexample :
    jlookup (generateOverrideData (.obj [("b", .int 1), ("a", .int 2)])
        "2025-01-01T00:00:00Z" "wf" "autogen" (.arr [])) "workflow_hash"
      = some (.str
        "sha256:21501dbaf73f5223934d22283f01caff4132bc1de4a9550c1ed0dffeb397a323")
    ∧ sha256hex (utf8Bytes (specCanonicalJson
        (.obj [("b", .int 1), ("a", .int 2)])))
      = "d3626ac30a87e6f7a6428233b3c68299976865fa5508e4267c5415c76af7a772"
    ∧ ¬ (("sha256:21501dbaf73f5223934d22283f01caff4132bc1de4a9550c1ed0dffeb397a323" : String)
        = "d3626ac30a87e6f7a6428233b3c68299976865fa5508e4267c5415c76af7a772")
    ∧ pyDumps (.obj [("b", .int 1), ("a", .int 2)])
      = "\x7b\"a\": 2, \"b\": 1\x7d"
    ∧ specCanonicalJson (.obj [("b", .int 1), ("a", .int 2)])
      = "\x7b\"a\":2,\"b\":1\x7d" := by
  refine ⟨rfl, rfl, by decide, rfl, rfl⟩

/-- C3 (amended): immediately after generation or regeneration the
stored `workflow_hash` equals the string `sha256:` followed by the hex
SHA-256 of the UTF-8 encoding of the canonical serialization that sorts
object keys recursively and uses Python's default separators — a space
after every comma and colon. -/
theorem hashing_claim_C3 (t : JVal) (genAt name description : String)
    (params : JVal) :
    jlookup (generateOverrideData t genAt name description params)
        "workflow_hash"
      = some (.str ("sha256:"
          ++ sha256hex (utf8Bytes (amendedCanonicalJson t)))) := by
  show some (JVal.str (calculateHash t)) = _
  rw [calculateHash, pyDumps_eq_amendedCanonicalJson]

end Hashing

namespace Planner

/-- A ranking function certifies acyclicity (used to discharge the
acyclicity hypothesis on concrete chains). -/
theorem acyclic_of_rank (steps : List StepNode) (rank : String → Nat)
    (hrank : ∀ s ∈ steps, ∀ d ∈ s.depends_on, rank d < rank s.id) :
    Acyclic steps := by
  have hedge : ∀ x y, edgeTo steps x y → rank y < rank x := by
    intro x y hxy
    unfold edgeTo depsOf at hxy
    cases hfind : steps.find? (fun s => s.id == x) with
    | none => rw [hfind] at hxy; cases hxy
    | some s =>
      rw [hfind] at hxy
      have hs : s ∈ steps := List.mem_of_find?_eq_some hfind
      have hsx : s.id = x := by simpa using List.find?_some hfind
      have hy : y ∈ s.depends_on := by simpa using hxy
      have := hrank s hs y hy
      rwa [hsx] at this
  have htg : ∀ x y, Relation.TransGen (edgeTo steps) x y → rank y < rank x := by
    intro x y h
    induction h with
    | single h => exact hedge _ _ h
    | tail _ h ih => exact lt_trans (hedge _ _ h) ih
  intro x hx
  exact lt_irrefl _ (htg x x hx)

/-- If no remaining node is ready, every remaining node has a remaining
dependency, and a cycle exists inside the (finite) remaining set. -/
theorem ready_nonempty (steps : List StepNode) (hacyc : Acyclic steps)
    (remaining : Finset String) (hne : remaining.Nonempty) :
    (ready steps remaining).Nonempty := by
  by_contra hempty
  rw [Finset.not_nonempty_iff_eq_empty] at hempty
  unfold ready at hempty
  rw [Finset.filter_eq_empty_iff] at hempty
  have hch : ∀ i : {x // x ∈ remaining},
      ∃ j : {x // x ∈ remaining}, edgeTo steps i.1 j.1 := by
    rintro ⟨i, hi⟩
    have := hempty hi
    have hnonempty : (depsOf steps i ∩ remaining).Nonempty :=
      Finset.nonempty_iff_ne_empty.mpr this
    obtain ⟨j, hj⟩ := hnonempty
    rw [Finset.mem_inter] at hj
    exact ⟨⟨j, hj.2⟩, hj.1⟩
  choose f hf using hch
  obtain ⟨x0, hx0⟩ := hne
  let seq : Nat → {x // x ∈ remaining} :=
    fun n => Nat.rec ⟨x0, hx0⟩ (fun _ prev => f prev) n
  have hstep : ∀ n, edgeTo steps (seq n).1 (seq (n + 1)).1 :=
    fun n => hf (seq n)
  have htrans : ∀ m n, m < n →
      Relation.TransGen (edgeTo steps) (seq m).1 (seq n).1 := by
    intro m n hmn
    induction n with
    | zero => cases hmn
    | succ n ih =>
      rcases Nat.lt_succ_iff_lt_or_eq.mp hmn with h | h
      · exact Relation.TransGen.tail (ih h) (hstep n)
      · subst h
        exact Relation.TransGen.single (hstep m)
  have hcard : Fintype.card {x // x ∈ remaining}
      < Fintype.card (Fin (remaining.card + 1)) := by
    rw [Fintype.card_coe, Fintype.card_fin]
    exact Nat.lt_succ_self _
  obtain ⟨i, j, hij, heq⟩ :=
    Fintype.exists_ne_map_eq_of_card_lt (fun n : Fin (remaining.card + 1) =>
      seq n.1) hcard
  rcases lt_or_gt_of_ne (fun h => hij (Fin.ext h)) with h | h
  · have := htrans i.1 j.1 h
    rw [heq] at this
    exact hacyc _ this
  · have := htrans j.1 i.1 h
    rw [← heq] at this
    exact hacyc _ this

end Planner

namespace Planner

/-- Every member of any produced level lies in the remaining set the loop
started from. -/
theorem kahnAux_getD_sub (steps : List StepNode) :
    ∀ (fuel : Nat) (remaining : Finset String) (L : Nat) (x : String),
      x ∈ ((kahnAux steps fuel remaining).getD L ∅) → x ∈ remaining := by
  intro fuel
  induction fuel with
  | zero =>
    intro remaining L x hx
    simp [kahnAux] at hx
  | succ fuel ih =>
    intro remaining L x hx
    rw [kahnAux] at hx
    by_cases hrem : remaining = ∅
    · rw [if_pos hrem] at hx
      simp at hx
    · rw [if_neg hrem] at hx
      by_cases hr : ready steps remaining = ∅
      · rw [if_pos hr] at hx
        simp at hx
      · rw [if_neg hr] at hx
        cases L with
        | zero =>
          have : x ∈ ready steps remaining := by simpa using hx
          exact Finset.filter_subset _ _ this
        | succ L =>
          have hx2 : x ∈ (kahnAux steps fuel
              (remaining \ ready steps remaining)).getD L ∅ := by
            simpa using hx
          exact Finset.sdiff_subset (ih _ L x hx2)

/-- With acyclicity and enough fuel the levels exhaust the remaining
set. -/
theorem kahnAux_union (steps : List StepNode) (hacyc : Acyclic steps) :
    ∀ (fuel : Nat) (remaining : Finset String), remaining.card ≤ fuel →
      (kahnAux steps fuel remaining).foldr (· ∪ ·) ∅ = remaining := by
  intro fuel
  induction fuel with
  | zero =>
    intro remaining hcard
    have : remaining = ∅ := Finset.card_eq_zero.mp (Nat.le_zero.mp hcard)
    subst this
    rfl
  | succ fuel ih =>
    intro remaining hcard
    rw [kahnAux]
    by_cases hrem : remaining = ∅
    · rw [if_pos hrem, hrem]
      rfl
    · rw [if_neg hrem]
      have hready : ¬ (ready steps remaining = ∅) := by
        have := ready_nonempty steps hacyc remaining
          (Finset.nonempty_iff_ne_empty.mpr hrem)
        exact Finset.nonempty_iff_ne_empty.mp this
      rw [if_neg hready]
      have hsubset : ready steps remaining ⊆ remaining :=
        Finset.filter_subset _ _
      have hlt : (remaining \ ready steps remaining).card < remaining.card := by
        apply Finset.card_lt_card
        constructor
        · exact Finset.sdiff_subset
        · intro hsub
          obtain ⟨x, hx⟩ := Finset.nonempty_iff_ne_empty.mpr hready
          have hxrem : x ∈ remaining := hsubset hx
          have := hsub hxrem
          rw [Finset.mem_sdiff] at this
          exact this.2 hx
      have hrec := ih (remaining \ ready steps remaining)
        (by omega)
      rw [List.foldr_cons, hrec]
      exact Finset.union_sdiff_of_subset hsubset

/-- The levels are pairwise disjoint. -/
theorem kahnAux_pairwise (steps : List StepNode) :
    ∀ (fuel : Nat) (remaining : Finset String),
      (kahnAux steps fuel remaining).Pairwise (fun a b => Disjoint a b) := by
  intro fuel
  induction fuel with
  | zero => intro remaining; exact List.Pairwise.nil
  | succ fuel ih =>
    intro remaining
    rw [kahnAux]
    by_cases hrem : remaining = ∅
    · rw [if_pos hrem]; exact List.Pairwise.nil
    · rw [if_neg hrem]
      by_cases hr : ready steps remaining = ∅
      · rw [if_pos hr]; exact List.Pairwise.nil
      · rw [if_neg hr]
        refine List.Pairwise.cons ?_ (ih _)
        intro l hl
        rw [Finset.disjoint_left]
        intro x hxr hxl
        have hLsub : ∀ L y, y ∈ ((kahnAux steps fuel
            (remaining \ ready steps remaining)).getD L ∅) →
            y ∈ remaining \ ready steps remaining :=
          fun L y hy => kahnAux_getD_sub steps fuel _ L y hy
        obtain ⟨L, hL⟩ := List.mem_iff_getElem.mp hl
        obtain ⟨hLlt, hLeq⟩ := hL
        have : x ∈ remaining \ ready steps remaining := by
          apply hLsub L
          rw [List.getD_eq_getElem?_getD, List.getElem?_eq_getElem hLlt, hLeq]
          simpa using hxl
        rw [Finset.mem_sdiff] at this
        exact this.2 hxr

end Planner

namespace Planner

/-- A step's dependencies always sit at strictly earlier levels. -/
theorem kahnAux_dep_levels (steps : List StepNode) :
    ∀ (fuel : Nat) (remaining : Finset String) (L Lp : Nat) (i d : String),
      i ∈ ((kahnAux steps fuel remaining).getD L ∅) →
      d ∈ depsOf steps i →
      d ∈ ((kahnAux steps fuel remaining).getD Lp ∅) →
      Lp < L := by
  intro fuel
  induction fuel with
  | zero =>
    intro remaining L Lp i d hi _ _
    simp [kahnAux] at hi
  | succ fuel ih =>
    intro remaining L Lp i d hi hd hdp
    rw [kahnAux] at hi hdp
    by_cases hrem : remaining = ∅
    · rw [if_pos hrem] at hi
      simp at hi
    · rw [if_neg hrem] at hi hdp
      by_cases hr : ready steps remaining = ∅
      · rw [if_pos hr] at hi
        simp at hi
      · rw [if_neg hr] at hi hdp
        cases L with
        | zero =>
          exfalso
          have hiready : i ∈ ready steps remaining := by simpa using hi
          unfold ready at hiready
          rw [Finset.mem_filter] at hiready
          have hdangling : d ∈ remaining := by
            cases Lp with
            | zero =>
              have hdr : d ∈ ready steps remaining := by simpa using hdp
              exact Finset.filter_subset _ _ hdr
            | succ Lp =>
              have hd2 : d ∈ (kahnAux steps fuel
                  (remaining \ ready steps remaining)).getD Lp ∅ := by
                simpa using hdp
              exact Finset.sdiff_subset (kahnAux_getD_sub steps fuel _ Lp d hd2)
          have : d ∈ depsOf steps i ∩ remaining :=
            Finset.mem_inter.mpr ⟨hd, hdangling⟩
          rw [hiready.2] at this
          cases this
        | succ L =>
          have hi2 : i ∈ (kahnAux steps fuel
              (remaining \ ready steps remaining)).getD L ∅ := by
            simpa using hi
          cases Lp with
          | zero => exact Nat.succ_pos L
          | succ Lp =>
            have hd2 : d ∈ (kahnAux steps fuel
                (remaining \ ready steps remaining)).getD Lp ∅ := by
              simpa using hdp
            exact Nat.succ_lt_succ (ih _ L Lp i d hi2 hd hd2)

/-- C5: for every validated chain (unique ids, dependencies that exist)
whose dependency graph is acyclic, the planner's levels partition the
step set — their union is the step set and no id appears in two levels —
and every dependency of a step sits at a strictly smaller level. -/
theorem planner_claim_C5 (steps : List StepNode)
    (hnodup : (steps.map StepNode.id).Nodup)
    (hdeps : ∀ s ∈ steps, ∀ d ∈ s.depends_on, d ∈ stepIds steps)
    (hacyc : Acyclic steps) :
    ((kahnLevels steps).foldr (· ∪ ·) ∅ = stepIds steps)
    ∧ (kahnLevels steps).Pairwise (fun a b => Disjoint a b)
    ∧ (∀ L Lp i d, i ∈ ((kahnLevels steps).getD L ∅) →
        d ∈ depsOf steps i → d ∈ ((kahnLevels steps).getD Lp ∅) →
        Lp < L) := by
  refine ⟨?_, ?_, ?_⟩
  · exact kahnAux_union steps hacyc _ _ le_rfl
  · exact kahnAux_pairwise steps _ _
  · intro L Lp i d hi hd hdp
    exact kahnAux_dep_levels steps _ _ L Lp i d hi hd hdp

end Planner

namespace Planner

/-- C5, witness: the diamond chain `a ← b, a ← c, (b,c) ← d` — levels
`a` / `b,c` / `d`; dependency `a` of `b` sits at level 0 < 1. -/
theorem planner_claim_C5_witness :
    ((kahnLevels [⟨"a", []⟩, ⟨"b", ["a"]⟩, ⟨"c", ["a"]⟩, ⟨"d", ["b", "c"]⟩]).foldr
        (· ∪ ·) ∅
      = stepIds [⟨"a", []⟩, ⟨"b", ["a"]⟩, ⟨"c", ["a"]⟩, ⟨"d", ["b", "c"]⟩])
    ∧ (kahnLevels [⟨"a", []⟩, ⟨"b", ["a"]⟩, ⟨"c", ["a"]⟩,
        ⟨"d", ["b", "c"]⟩]).Pairwise (fun a b => Disjoint a b)
    ∧ 0 < 1 := by
  have h := planner_claim_C5
    [⟨"a", []⟩, ⟨"b", ["a"]⟩, ⟨"c", ["a"]⟩, ⟨"d", ["b", "c"]⟩]
    (by decide) (by decide)
    (acyclic_of_rank _ (fun s => if s == "d" then 2 else if s == "a" then 0 else 1)
      (by decide))
  exact ⟨h.1, h.2.1, h.2.2 1 0 "b" "a" (by decide) (by decide) (by decide)⟩

end Planner

namespace Hashing

/-- The SHA-256 implementation agrees with the standard test vector for
`"abc"`. -/
theorem sha256hex_abc :
    sha256hex (utf8Bytes "abc")
      = "ba7816bf8f01cfea414140de5dae2223b00361a396177a9cb410ff61f20015ad" := by
  rfl

end Hashing
